import Mathlib

/-!
# cronrange: construction and occurrence windows

A shallow embedding of `cronrange.go` and `function.go`.

Modelling conventions.

* `time.Time` is an absolute instant in nanoseconds relative to the Unix epoch, together
  with a display zone.  `Before`, `After` and `Equal` compare instants only; `In` changes
  the display zone only; `Add` moves the instant.  Instants are unbounded integers: the
  range of `time.Time` (64-bit seconds) is far wider than the range of `time.Duration`.
* `time.Duration` is a signed 64-bit count of nanoseconds; arithmetic written in the source
  on durations wraps (`toInt64`).
* A Go pointer receiver `*CronRange` is an `Option CronRange`; a panic is `Except.error`
  carrying the panic message.
* The cron evaluator (`cronexpr.Expression.Next`), the cron text parser
  (`cronexpr.ParseStrict`) and the zone database (`time.LoadLocation`) are external
  collaborators: the first is a field of the opaque schedule handle, the other two are the
  fields of `Externals`.
-/

namespace Cronrange

/-! ## The `time` package -/

/-- A `*time.Location`.  `Local` is the pointer `time.Local`; every other zone is
identified by its name. -/
inductive Location where
  | Local : Location
  | Zone (name : String) : Location
deriving DecidableEq, Repr

/-- A `time.Time`: an absolute instant (`ns`, nanoseconds since the Unix epoch) and a
display zone. -/
structure Time where
  ns : Int
  loc : Location
deriving DecidableEq, Repr

/-- The constant `time.Nanosecond`. -/
def Nanosecond : Int := 1

/-- The constant `time.Second`. -/
def Second : Int := 1000000000

/-- The constant `time.Minute`. -/
def Minute : Int := 60 * Second

/-- Two's-complement wrap of an integer into the signed 64-bit range. -/
def toInt64 (x : Int) : Int := (x + 2 ^ 63) % 2 ^ 64 - 2 ^ 63

/-- The instant of the zero `time.Time` (January 1, year 1, 00:00:00 UTC) in Unix
nanoseconds. -/
def zeroTimeNs : Int := -62135596800 * Second

/-- The method `Time.Before`. -/
def Time.Before (t u : Time) : Bool := decide (t.ns < u.ns)

/-- The method `Time.After`. -/
def Time.After (t u : Time) : Bool := decide (u.ns < t.ns)

/-- The method `Time.Equal`: same instant, whatever the display zones. -/
def Time.Equal (t u : Time) : Bool := decide (t.ns = u.ns)

/-- The method `Time.Add`. -/
def Time.Add (t : Time) (d : Int) : Time := { t with ns := t.ns + d }

/-- The method `Time.In` for a non-nil location. -/
def Time.In (t : Time) (l : Cronrange.Location) : Time := { t with loc := l }

/-- The method `Time.IsZero`. -/
def Time.IsZero (t : Time) : Bool := decide (t.ns = zeroTimeNs)

/-- The method `Time.In` for a location pointer that may be nil: a nil location panics. -/
def timeIn (t : Time) : Option Location → Except String Time
  | none => .error "time: missing Location in call to Time.In"
  | some l => .ok (t.In l)

/-- The method `Time.Location`. -/
def Time.Location (t : Time) : Cronrange.Location := t.loc

/-! ## The `strings` package -/

/-- The predicate `unicode.IsSpace`. -/
def isSpace (c : Char) : Bool :=
  let n := c.toNat
  n == 9 || n == 10 || n == 11 || n == 12 || n == 13 || n == 32 || n == 0x85 || n == 0xA0 ||
  n == 0x1680 || (0x2000 ≤ n && n ≤ 0x200A) || n == 0x2028 || n == 0x2029 || n == 0x202F ||
  n == 0x205F || n == 0x3000

/-- The function `strings.TrimSpace`: leading and trailing white space removed. -/
def TrimSpace (s : String) : String :=
  String.mk ((s.data.dropWhile isSpace).reverse.dropWhile isSpace).reverse

/-- Lower-casing of one character, `A`..`Z` only. -/
def lowerChar (c : Char) : Char :=
  if 65 ≤ c.toNat ∧ c.toNat ≤ 90 then Char.ofNat (c.toNat + 32) else c

/-- The function `strings.ToLower`, on the letters `A`..`Z`.  The source uses it only in
the comparison with the ASCII word `local`, which no other letter lower-cases into. -/
def ToLower (s : String) : String := String.mk (s.data.map lowerChar)

/-! ## External collaborators -/

/-- A `cronexpr.Expression`: the opaque schedule handle, seen through its method `Next`. -/
structure Expression where
  Next : Time → Time

/-- A `cron.Parser` of `robfig/cron`, seen through its option bits. -/
structure Parser where
  options : Nat

/-- The zone database `time.LoadLocation` and the cron text parser `cronexpr.ParseStrict`.
Each returns either a value or an error message. -/
structure Externals where
  LoadLocation : String → Except String Location
  ParseStrict : String → Except String Expression

/-! ## cronrange.go -/

/-- The package variable `cronParseOption`:
`cron.Minute | cron.Hour | cron.Dom | cron.Month | cron.Dow`. -/
def cronParseOption : Nat := 4 ||| 8 ||| 16 ||| 32 ||| 64

/-- The package variable `cronParser`. -/
def cronParser : Parser := ⟨cronParseOption⟩

/-- The constant `Version1`. -/
def Version1 : Int := 0

/-- The constant `Version2`. -/
def Version2 : Int := 1

/-- The errors the constructors return: the package variable `errZeroDuration`, the
`fmt.Errorf("provided bad location %s: %v", tz, err)` value, and an error of the cron
text parser handed on unchanged. -/
inductive Error where
  | errZeroDuration : Error
  | badLocation (tz : String) (cause : String) : Error
  | cronParse (msg : String) : Error
deriving DecidableEq, Repr

/-- The text of an error. -/
def Error.message : Error → String
  | .errZeroDuration => "duration should be positive"
  | .badLocation tz cause => "provided bad location " ++ tz ++ ": " ++ cause
  | .cronParse msg => msg

/-- The struct `CronRange`.  The two handles are pointers and may be nil. -/
structure CronRange where
  cronExpression : String
  timeZone : String
  duration : Int
  expr : Option Expression
  location : Option Location
  version : Int

/-- The struct `TimeRange`. -/
structure TimeRange where
  Start : Time
  End : Time
deriving DecidableEq, Repr

/-- The function `internalNew`.  The result is the pair of named results `(cr, err)`. -/
def internalNew (env : Externals) (cronExpr tz : String) (td : Int) (_cp : Parser) :
    Option CronRange × Option Error :=
  if td ≤ 0 then
    (none, some Error.errZeroDuration)
  else
    let cronExpr := TrimSpace cronExpr
    let tz := TrimSpace tz
    let tz := if ToLower tz = "local" then "" else tz
    match (if tz.length > 0 then env.LoadLocation tz else Except.ok Location.Local) with
    | .error e => (none, some (Error.badLocation tz e))
    | .ok loc =>
      match env.ParseStrict cronExpr with
      | .error e => (none, some (Error.cronParse e))
      | .ok expression =>
        (some { cronExpression := cronExpr, timeZone := tz, duration := td,
                expr := some expression, location := some loc, version := 0 }, none)

/-- The function `New`.  `durationMin` is a `uint64`; the conversion to `time.Duration`
and the multiplication by `time.Minute` wrap. -/
def New (env : Externals) (cronExpr timeZone : String) (durationMin : Nat) :
    Option CronRange × Option Error :=
  internalNew env cronExpr timeZone (toInt64 (toInt64 (durationMin : Int) * Minute)) cronParser

/-- The function `Create`.  The assignment `cr.version = Version2` runs when `err` is nil. -/
def Create (env : Externals) (cronExpr timeZone : String) (duration : Int) (cp : Parser) :
    Option CronRange × Option Error :=
  match internalNew env cronExpr timeZone duration cp with
  | (cr, none) => (cr.map (fun c => { c with version := Version2 }), none)
  | (cr, some err) => (cr, some err)

/-! ## function.go -/

/-- The method `checkPrecondition`. -/
def CronRange.checkPrecondition : Option CronRange → Except String Unit
  | none => .error "CronRange is nil"
  | some cr =>
    if cr.duration ≤ 0 then .error "duration of CronRange is not positive"
    else if cr.expr.isNone then .error "schedule of CronRange is nil"
    else .ok ()

/-- The method `Duration`. -/
def CronRange.Duration (cr : Option CronRange) : Except String Int :=
  match CronRange.checkPrecondition cr, cr with
  | .error p, _ => .error p
  | .ok _, none => .error "CronRange is nil"
  | .ok _, some c => .ok c.duration

/-- The method `TimeZone`. -/
def CronRange.TimeZone (cr : Option CronRange) : Except String String :=
  match CronRange.checkPrecondition cr, cr with
  | .error p, _ => .error p
  | .ok _, none => .error "CronRange is nil"
  | .ok _, some c => .ok c.timeZone

/-- The method `CronExpression`. -/
def CronRange.CronExpression (cr : Option CronRange) : Except String String :=
  match CronRange.checkPrecondition cr, cr with
  | .error p, _ => .error p
  | .ok _, none => .error "CronRange is nil"
  | .ok _, some c => .ok c.cronExpression

/-- The conversion both methods apply to their time argument:
`if cr.location != time.Local { t = t.In(cr.location) }`. -/
def CronRange.toLocation (location : Option Location) (t : Time) : Except String Time :=
  if location ≠ some Location.Local then timeIn t location else .ok t

/-- The loop of `NextOccurrences`, with `n` iterations left, reference instant `curr` and
the windows appended so far. -/
def CronRange.nextLoop (expr : Expression) (duration : Int) (origLocation : Location) :
    Nat → Time → List TimeRange → List TimeRange
  | 0, _, occurs => occurs
  | n + 1, curr, occurs =>
    let next := expr.Next curr
    if next.Before curr then
      occurs
    else
      let occur : TimeRange :=
        { Start := next.In origLocation, End := (next.Add duration).In origLocation }
      CronRange.nextLoop expr duration origLocation n next (occurs ++ [occur])

/-- The method `NextOccurrences`. -/
def CronRange.NextOccurrences (cr : Option CronRange) (t : Time) (count : Int) :
    Except String (List TimeRange) :=
  match CronRange.checkPrecondition cr, cr with
  | .error p, _ => .error p
  | .ok _, none => .error "CronRange is nil"
  | .ok _, some c =>
    if count ≤ 0 then .error "count is not positive"
    else
      let origLocation := t.Location
      match CronRange.toLocation c.location t, c.expr with
      | .error p, _ => .error p
      | .ok _, none => .error "schedule of CronRange is nil"
      | .ok t, some expr => .ok (CronRange.nextLoop expr c.duration origLocation count.toNat t [])

/-- The instant `IsWithin` hands to the evaluator:
`t.Add(-(cr.duration + 1*time.Second - 1*time.Nanosecond))`. -/
def CronRange.searchStart (duration : Int) (t : Time) : Time :=
  t.Add (toInt64 (-(toInt64 (toInt64 (duration + 1 * Second) - 1 * Nanosecond))))

/-- The method `IsWithin`. -/
def CronRange.IsWithin (cr : Option CronRange) (t : Time) : Except String Bool :=
  match CronRange.checkPrecondition cr, cr with
  | .error p, _ => .error p
  | .ok _, none => .error "CronRange is nil"
  | .ok _, some c =>
    match CronRange.toLocation c.location t, c.expr with
    | .error p, _ => .error p
    | .ok _, none => .error "schedule of CronRange is nil"
    | .ok t, some expr =>
      let searchStart := CronRange.searchStart c.duration t
      let rangeStart := expr.Next searchStart
      let rangeEnd := rangeStart.Add c.duration
      if rangeStart.Before searchStart then .ok false
      else .ok ((rangeStart.Before t && rangeEnd.After t) || rangeStart.Equal t || rangeEnd.Equal t)

/-! ## The canonical text form

The methods `String` and `ParseString` are declared by the tests of the repository
(`serialize_test.go`); their source is not part of the files at hand.  They are modelled
here from section 4.2 of the specification. -/

/-- Modelled from the spec: the character of a decimal digit, for the
`<duration-in-whole-minutes>` of the canonical text form. -/
def digitChar (d : Nat) : Char := Char.ofNat (48 + d)

/-- Modelled from the spec: the decimal digits of `n`, most significant first, for the
`<duration-in-whole-minutes>` of the canonical text form.  The first argument bounds the
number of digits. -/
def decimalDigits : Nat → Nat → List Char
  | 0, _ => []
  | fuel + 1, n =>
    if n < 10 then [digitChar n] else decimalDigits fuel (n / 10) ++ [digitChar (n % 10)]

/-- Modelled from the spec: the decimal text of a natural number. -/
def decimal (n : Nat) : List Char := decimalDigits (n + 1) n

/-- Modelled from the spec: the value of a decimal digit, for the `<integer>` of a `DR=`
segment. -/
def digitValue (c : Char) : Option Nat :=
  if 48 ≤ c.toNat ∧ c.toNat ≤ 57 then some (c.toNat - 48) else none

/-- Modelled from the spec: one step of reading a decimal number. -/
def readDigit (acc : Option Nat) (c : Char) : Option Nat :=
  match acc, digitValue c with
  | some a, some v => some (a * 10 + v)
  | _, _ => none

/-- Modelled from the spec: the natural number written by a non-empty run of decimal
digits. -/
def parseNat (l : List Char) : Option Nat :=
  if l.isEmpty then none else l.foldl readDigit (some 0)

/-- Modelled from the spec: the `<integer>` of a `DR=` segment, an optional minus sign and
decimal digits; anything else is not an integer. -/
def parseInteger : List Char → Option Int
  | [] => none
  | c :: cs =>
    if c = Char.ofNat 45 then (parseNat cs).map (fun n => -(n : Int))
    else (parseNat (c :: cs)).map (fun n => (n : Int))

/-- Modelled from the spec: the pieces of a text between the occurrences of the separator
(step 1 of Parse, "split text on `;`"). -/
def splitOn (sep : Char) : List Char → List (List Char)
  | [] => [[]]
  | c :: cs =>
    if c = sep then [] :: splitOn sep cs
    else
      match splitOn sep cs with
      | [] => [[c]]
      | p :: ps => (c :: p) :: ps

/-- The characters of `strings.TrimSpace`. -/
def trimChars (l : List Char) : List Char :=
  ((l.dropWhile isSpace).reverse.dropWhile isSpace).reverse

/-- Modelled from the spec: the case-sensitive test that a piece begins with a key such
as `DR=` (step 2 of Parse). -/
def startsWith : List Char → List Char → Bool
  | [], _ => true
  | _ :: _, [] => false
  | a :: as, b :: bs => a == b && startsWith as bs

/-- Modelled from the spec: the pieces joined with single spaces (step 2 of Parse, the
candidate cron text). -/
def joinWords : List (List Char) → List Char
  | [] => []
  | [p] => p
  | p :: q :: ps => p ++ Char.ofNat 32 :: joinWords (q :: ps)

/-- Modelled from the spec: the error kinds of Parse (section 7): `EmptyInput`,
`MissingDuration`, `InvalidDuration` for a `DR=` value that is not a positive integer, a
key given twice, and an error of the constructor handed on as it is. -/
inductive ParseError where
  | emptyInput : ParseError
  | missingDuration : ParseError
  | invalidDuration : ParseError
  | repeatedKey : ParseError
  | construct (e : Error) : ParseError
deriving DecidableEq, Repr

/-- Modelled from the spec: step 2 of Parse, the scan of the leading key segments.  It
takes the duration in minutes and the zone name set so far and returns them with the
pieces that form the cron text: the first piece that is no key segment and every piece
after it. -/
def scanKeys : List (List Char) → Option Nat → Option (List Char) →
    Except ParseError (Option Nat × Option (List Char) × List (List Char))
  | [], d, z => .ok (d, z, [])
  | p :: ps, d, z =>
    if startsWith "DR=".data p then
      match d with
      | some _ => .error ParseError.repeatedKey
      | none =>
        match parseInteger (p.drop 3) with
        | none => .error ParseError.invalidDuration
        | some v =>
          if v ≤ 0 then .error ParseError.invalidDuration
          else scanKeys ps (some v.toNat) z
    else if startsWith "TZ=".data p then
      match z with
      | some _ => .error ParseError.repeatedKey
      | none =>
        scanKeys ps d (some (if ToLower ⟨p.drop 3⟩ = "local" then [] else p.drop 3))
    else .ok (d, z, p :: ps)

/-- Modelled from the spec: step 1 of Parse: the text split on `;`, each piece trimmed,
the empty pieces dropped. -/
def textPieces (text : String) : List (List Char) :=
  ((splitOn (Char.ofNat 59) text.data).map trimChars).filter (fun p => !p.isEmpty)

/-- Modelled from the spec: step 4 of Parse, "propagate any of its errors verbatim": the
result of the constructor as a result of Parse. -/
def liftError : Option CronRange × Option Error → Option CronRange × Option ParseError
  | (cr, none) => (cr, none)
  | (_, some e) => (none, some (ParseError.construct e))

/-- Modelled from the spec: steps 3 and 4 of Parse, on the outcome of the key scan: no
duration is `MissingDuration`; otherwise the constructor `New` is called with the minutes,
the zone name (empty by default) and the pieces of the cron text joined with single
spaces. -/
def construct (env : Externals) :
    Option Nat × Option (List Char) × List (List Char) → Option CronRange × Option ParseError
  | (none, _, _) => (none, some ParseError.missingDuration)
  | (some minutes, z, rest) => liftError (New env ⟨joinWords rest⟩ ⟨z.getD []⟩ minutes)

/-- Modelled from the spec: the function `ParseString` (section 4.2, Parse): no piece at
all is `EmptyInput`; otherwise the leading keys are scanned and the constructor is
called. -/
def ParseString (env : Externals) (text : String) : Option CronRange × Option ParseError :=
  match textPieces text with
  | [] => (none, some ParseError.emptyInput)
  | p :: ps =>
    match scanKeys (p :: ps) none none with
    | .error e => (none, some e)
    | .ok found => construct env found

/-- Modelled from the spec: the characters of the canonical text form (section 4.2,
Format): `DR=<duration-in-whole-minutes>`, then `; TZ=<zoneName>` when the zone name is
not empty, then `; <cronText>`. -/
def canonicalChars (minutes : Nat) (timeZone cronExpression : String) : List Char :=
  "DR=".data ++ decimal minutes
    ++ (if timeZone = "" then [] else "; TZ=".data ++ timeZone.data)
    ++ "; ".data ++ cronExpression.data

/-- Modelled from the spec: the method `String` (section 4.2, Format): the empty string
for an absent or incomplete value, the canonical text form otherwise. -/
def CronRange.String : Option CronRange → String
  | none => ""
  | some c =>
    if c.duration ≤ 0 ∨ c.expr.isNone ∨ c.location.isNone then ""
    else ⟨canonicalChars (c.duration / Minute).toNat c.timeZone c.cronExpression⟩

/-! ## Sample collaborators

Concrete collaborators on which the statements below are evaluated. -/

/-- An evaluator for a schedule that matches every `n`-th whole minute: the least multiple
of `n` minutes strictly after the instant of the argument, in the argument's zone. -/
def everyMinutes (n : Nat) : Expression :=
  ⟨fun t => { ns := (t.ns / ((n : Int) * Minute) + 1) * ((n : Int) * Minute), loc := t.loc }⟩

/-- The special case at the head of `cronexpr`'s `Next`: a zero `fromTime` is returned
as it is; any other argument goes to the evaluator `e`. -/
def zeroGuarded (e : Expression) : Expression :=
  ⟨fun t => if t.IsZero then t else e.Next t⟩

/-- An evaluator that never finds a match: it returns the zero time in UTC. -/
def neverMatches : Expression :=
  ⟨fun _ => { ns := zeroTimeNs, loc := Location.Zone "UTC" }⟩

/-- A zone database knowing three names, and a parser knowing two schedules. -/
def sampleExternals : Externals where
  LoadLocation := fun name =>
    if name = "Asia/Bangkok" ∨ name = "Etc/UTC" ∨ name = "Pacific/Honolulu" then
      .ok (Location.Zone name)
    else .error ("unknown time zone " ++ name)
  ParseStrict := fun text =>
    if text = "* * * * *" then .ok (everyMinutes 1)
    else if text = "*/5 * * * *" then .ok (everyMinutes 5)
    else .error "syntax error"

/-- A zone database that fails on every name. -/
def noZones : String → Except String Location := fun name => .error ("unknown time zone " ++ name)

/-- The schedule `* * * * *` with a window of `d` nanoseconds, in the process-local zone. -/
def everyMinuteFor (d : Int) : CronRange :=
  { cronExpression := "* * * * *", timeZone := "", duration := d,
    expr := some (everyMinutes 1), location := some Location.Local, version := Version2 }

/-- The schedule `*/5 * * * *` with a window of one minute, in the zone `Asia/Bangkok`. -/
def every5MinBangkok : CronRange :=
  { cronExpression := "*/5 * * * *", timeZone := "Asia/Bangkok", duration := 1 * Minute,
    expr := some (everyMinutes 5), location := some (Location.Zone "Asia/Bangkok"),
    version := Version1 }

/-- The schedule `* * * * *` with a one-minute window in the process-local zone, its
evaluator starting with the zero-time special case of `cronexpr`. -/
def everyMinuteGuarded : CronRange :=
  { cronExpression := "* * * * *", timeZone := "", duration := 1 * Minute,
    expr := some (zeroGuarded (everyMinutes 1)), location := some Location.Local,
    version := Version1 }

/-- The zero `time.Time`, which `Time.Location` shows in UTC. -/
def zeroTime : Time := { ns := zeroTimeNs, loc := Location.Zone "UTC" }

/-- The zero value `CronRange{}`: empty texts, a zero duration and both handles nil. -/
def zeroValue : CronRange :=
  { cronExpression := "", timeZone := "", duration := 0, expr := none, location := none,
    version := 0 }

/-- UTC offsets of the sample zones: `Asia/Bangkok` is seven hours ahead, the others and
the process-local zone are at UTC. -/
def sampleOffset : Location → Int
  | .Local => 0
  | .Zone name => if name = "Asia/Bangkok" then 7 * 60 * Minute else 0

/-- An evaluator for `0 8 * * *` that matches the cron fields in the display zone of its
argument: the least instant strictly after the argument whose wall clock in the argument's
zone reads 08:00. -/
def dailyAtEight : Expression :=
  ⟨fun t =>
    { ns := ((t.ns + sampleOffset t.loc - 8 * 60 * Minute) / (24 * 60 * Minute) + 1)
              * (24 * 60 * Minute) + 8 * 60 * Minute - sampleOffset t.loc,
      loc := t.loc }⟩

/-- The schedule `0 8 * * *` with a one-minute window in the process-local zone. -/
def dailyAtEightLocal : CronRange :=
  { cronExpression := "0 8 * * *", timeZone := "", duration := 1 * Minute,
    expr := some dailyAtEight, location := some Location.Local, version := Version1 }

/-- An evaluator for a schedule whose only match is the Unix epoch: the epoch for an
argument before it, the zero time (the not-found answer) otherwise. -/
def onlyAtEpoch : Expression :=
  ⟨fun t => if t.ns < 0 then { ns := 0, loc := t.loc }
    else { ns := zeroTimeNs, loc := Location.Zone "UTC" }⟩

/-- A CronRange over `onlyAtEpoch` whose duration is the largest `time.Duration`. -/
def onceForMaxDuration : CronRange :=
  { cronExpression := "0 0 1 1 *", timeZone := "", duration := 9223372036854775807,
    expr := some onlyAtEpoch, location := some Location.Local, version := Version2 }

/-- The schedule `* * * * *` with a ten-minute window in the zone `Pacific/Honolulu`, as
`New("* * * * *", "Pacific/Honolulu", 10)` builds it. -/
def everyMinuteHonolulu : CronRange :=
  { cronExpression := "* * * * *", timeZone := "Pacific/Honolulu", duration := 10 * Minute,
    expr := some (everyMinutes 1), location := some (Location.Zone "Pacific/Honolulu"),
    version := Version1 }

/-! ## Predicates used in the statements -/

/-- The evaluator `e` answers with the least match instant strictly after its argument,
in the argument's zone, where `M l m` says that the instant `m` matches the schedule read
in the zone `l`; when no match lies after the argument it answers with an instant before
the argument (the not-found sentinel). -/
def LeastMatchAfter (M : Location → Int → Prop) (e : Expression) : Prop :=
  ∀ a : Time,
    ((e.Next a).loc = a.loc ∧ M a.loc (e.Next a).ns ∧ a.ns < (e.Next a).ns ∧
      ∀ m, M a.loc m → a.ns < m → (e.Next a).ns ≤ m) ∨
    ((∀ m, M a.loc m → m ≤ a.ns) ∧ (e.Next a).ns < a.ns)

/-- A constructor result is atomic: a CronRange and no error, or an error and no
CronRange. -/
def Atomic (r : Option CronRange × Option Error) : Prop :=
  (∃ c, r = (some c, none)) ∨ (∃ e, r = (none, some e))

/-- The error of a constructor result `r` is fixed by the first failing check, in the
order duration, zone, cron text. -/
def ErrorOrder (env : Externals) (cronExpr timeZone : String) (duration : Int)
    (r : Option CronRange × Option Error) : Prop :=
  (duration ≤ 0 → r = (none, some Error.errZeroDuration)) ∧
  (∀ cause : String, 0 < duration → TrimSpace timeZone ≠ "" →
    ToLower (TrimSpace timeZone) ≠ "local" →
    env.LoadLocation (TrimSpace timeZone) = .error cause →
    r = (none, some (Error.badLocation (TrimSpace timeZone) cause))) ∧
  (∀ e : String, 0 < duration →
    (TrimSpace timeZone = "" ∨ ToLower (TrimSpace timeZone) = "local" ∨
      ∃ l, env.LoadLocation (TrimSpace timeZone) = .ok l) →
    env.ParseStrict (TrimSpace cronExpr) = .error e →
    r = (none, some (Error.cronParse e)))

/-- A call panics: its result is a panic message. -/
def Panics {α : Type} (r : Except String α) : Prop := ∃ p, r = .error p

/-- The receiver fails `checkPrecondition`: it is nil, or its duration is not positive, or
its schedule handle is nil. -/
def FailsPrecondition : Option CronRange → Prop
  | none => True
  | some c => c.duration ≤ 0 ∨ c.expr = none

/-- The invariant of the data model on the two handles: the schedule handle and the
location handle are both present or both absent.  The nil receiver, the zero value and
every value the constructors return meet it. -/
def HandlesTogether : Option CronRange → Prop
  | none => True
  | some c => (c.expr = none ↔ c.location = none)

/-- The receiver is not nil and its location handle is nil. -/
def LocationIsNil : Option CronRange → Prop
  | none => False
  | some c => c.location = none

/-- A text that holds no semicolon and begins with neither key, `DR=` or `TZ=`. -/
def PlainText (l : List Char) : Prop :=
  Char.ofNat 59 ∉ l ∧ startsWith "DR=".data l = false ∧ startsWith "TZ=".data l = false

/-- Every piece holds no semicolon, is not empty and has no white space at its ends: what
step 1 of Parse leaves. -/
def PiecesOk (ps : List (List Char)) : Prop :=
  ∀ p ∈ ps, Char.ofNat 59 ∉ p ∧ p ≠ [] ∧ trimChars p = p

/-! ## Auxiliary facts -/

theorem toInt64_of_range (x : Int) (h1 : -9223372036854775808 ≤ x)
    (h2 : x < 9223372036854775808) : toInt64 x = x := by
  unfold toInt64
  norm_num
  omega

theorem searchStart_ns (d : Int) (t : Time) (h0 : 0 < d)
    (h1 : d + 999999999 < 9223372036854775808) :
    (CronRange.searchStart d t).ns = t.ns - (d + 999999999) := by
  have e : toInt64 (-(toInt64 (toInt64 (d + 1 * Second) - 1 * Nanosecond)))
      = -(d + 999999999) := by
    unfold toInt64 Second Nanosecond
    norm_num
    omega
  simp only [CronRange.searchStart, Time.Add, e]
  omega

theorem toLocation_some (loc : Location) (t : Time) :
    ∃ ref : Time, CronRange.toLocation (some loc) t = .ok ref ∧ ref.ns = t.ns ∧
      ref.loc = (if loc = Location.Local then t.loc else loc) := by
  unfold CronRange.toLocation
  by_cases h : loc = Location.Local
  · subst h
    exact ⟨t, by simp, rfl, by simp⟩
  · refine ⟨t.In loc, ?_, rfl, ?_⟩
    · simp [h, timeIn]
    · simp [h, Time.In]

theorem nextLoop_append (expr : Expression) (d : Int) (orig : Location) (n : Nat) :
    ∀ (curr : Time) (acc : List TimeRange),
      CronRange.nextLoop expr d orig n curr acc
        = acc ++ CronRange.nextLoop expr d orig n curr [] := by
  induction n with
  | zero => intro curr acc; simp [CronRange.nextLoop]
  | succ n ih =>
    intro curr acc
    simp only [CronRange.nextLoop]
    by_cases hb : (expr.Next curr).Before curr = true
    · simp [hb]
    · simp only [hb, if_false]
      rw [ih (expr.Next curr) (acc ++ _), ih (expr.Next curr) ([] ++ _)]
      simp

theorem nextLoop_cons (expr : Expression) (d : Int) (orig : Location) (n : Nat) (curr : Time)
    (hb : (expr.Next curr).Before curr = false) :
    CronRange.nextLoop expr d orig (n + 1) curr []
      = { Start := (expr.Next curr).In orig, End := ((expr.Next curr).Add d).In orig }
          :: CronRange.nextLoop expr d orig n (expr.Next curr) [] := by
  simp only [CronRange.nextLoop, hb]
  rw [nextLoop_append]
  simp

theorem nextLoop_stop (expr : Expression) (d : Int) (orig : Location) (n : Nat) (curr : Time)
    (hb : (expr.Next curr).Before curr = true) :
    CronRange.nextLoop expr d orig (n + 1) curr [] = [] := by
  simp [CronRange.nextLoop, hb]

theorem nextLoop_get (expr : Expression) (d : Int) (orig : Location) (n : Nat) :
    ∀ (curr : Time) (i : Nat) (w : TimeRange),
      (CronRange.nextLoop expr d orig n curr [])[i]? = some w →
        w.Start = (expr.Next (expr.Next^[i] curr)).In orig ∧
        w.End = ((expr.Next (expr.Next^[i] curr)).Add d).In orig ∧
        (expr.Next (expr.Next^[i] curr)).Before (expr.Next^[i] curr) = false := by
  induction n with
  | zero => intro curr i w h; simp [CronRange.nextLoop] at h
  | succ n ih =>
    intro curr i w h
    cases hb : (expr.Next curr).Before curr with
    | true => rw [nextLoop_stop expr d orig n curr hb] at h; simp at h
    | false =>
      rw [nextLoop_cons expr d orig n curr hb] at h
      cases i with
      | zero =>
        simp at h
        subst h
        simp [hb]
      | succ i =>
        simp only [List.getElem?_cons_succ] at h
        have := ih (expr.Next curr) i w h
        simpa [Function.iterate_succ] using this

theorem NextOccurrences_complete (cr : CronRange) (expr : Expression) (loc : Location)
    (t ref : Time) (count : Int) (hd : 0 < cr.duration) (he : cr.expr = some expr)
    (hl : cr.location = some loc) (hc : 1 ≤ count)
    (hr : CronRange.toLocation (some loc) t = .ok ref) :
    CronRange.NextOccurrences (some cr) t count
      = .ok (CronRange.nextLoop expr cr.duration t.loc count.toNat ref []) := by
  have h1 : ¬ cr.duration ≤ 0 := by omega
  have h2 : ¬ count ≤ 0 := by omega
  simp [CronRange.NextOccurrences, CronRange.checkPrecondition, h1, h2, he, hl, hr,
    Time.Location]

theorem IsWithin_complete (cr : CronRange) (expr : Expression) (loc : Location)
    (t ref : Time) (hd : 0 < cr.duration) (he : cr.expr = some expr)
    (hl : cr.location = some loc) (hr : CronRange.toLocation (some loc) t = .ok ref) :
    CronRange.IsWithin (some cr) t
      = if (expr.Next (CronRange.searchStart cr.duration ref)).Before
            (CronRange.searchStart cr.duration ref) then .ok false
        else .ok ((((expr.Next (CronRange.searchStart cr.duration ref)).Before ref
            && ((expr.Next (CronRange.searchStart cr.duration ref)).Add cr.duration).After ref)
          || (expr.Next (CronRange.searchStart cr.duration ref)).Equal ref)
          || ((expr.Next (CronRange.searchStart cr.duration ref)).Add cr.duration).Equal ref) := by
  have h1 : ¬ cr.duration ≤ 0 := by omega
  simp [CronRange.IsWithin, CronRange.checkPrecondition, h1, he, hl, hr]

theorem toLocation_ok (loc : Location) (t ref : Time)
    (h : CronRange.toLocation (some loc) t = .ok ref) :
    ref.ns = t.ns ∧ ref.loc = (if loc = Location.Local then t.loc else loc) := by
  obtain ⟨r, hr, h1, h2⟩ := toLocation_some loc t
  rw [hr] at h
  cases h
  exact ⟨h1, h2⟩

theorem everyMinutes_least (n : Nat) (hn : 0 < n) :
    LeastMatchAfter (fun _ m => (n : Int) * Minute ∣ m) (everyMinutes n) := by
  intro a
  left
  have hP : (0 : Int) < (n : Int) * Minute := by
    have : (0 : Int) < (n : Int) := by exact_mod_cast hn
    unfold Minute Second
    positivity
  refine ⟨rfl, Dvd.intro_left _ rfl, Int.lt_ediv_add_one_mul_self a.ns hP, ?_⟩
  rintro m ⟨k, rfl⟩ hlt
  show (a.ns / ((n : Int) * Minute) + 1) * ((n : Int) * Minute) ≤ (n : Int) * Minute * k
  have h1 : a.ns / ((n : Int) * Minute) < k :=
    Int.ediv_lt_of_lt_mul hP (by rw [mul_comm]; exact hlt)
  have h2 : a.ns / ((n : Int) * Minute) + 1 ≤ k := by omega
  calc (a.ns / ((n : Int) * Minute) + 1) * ((n : Int) * Minute)
      ≤ k * ((n : Int) * Minute) := Int.mul_le_mul_of_nonneg_right h2 (le_of_lt hP)
    _ = (n : Int) * Minute * k := mul_comm _ _

theorem nextLoop_mem (M : Location → Int → Prop) (expr : Expression) (d : Int)
    (orig : Location) (hE : LeastMatchAfter M expr) (n : Nat) :
    ∀ (curr : Time) (w : TimeRange), w ∈ CronRange.nextLoop expr d orig n curr [] →
      ∃ s : Int, M curr.loc s ∧ w.Start = ⟨s, orig⟩ ∧ w.End = ⟨s + d, orig⟩ := by
  induction n with
  | zero => intro curr w h; simp [CronRange.nextLoop] at h
  | succ n ih =>
    intro curr w h
    cases hb : (expr.Next curr).Before curr with
    | true => rw [nextLoop_stop expr d orig n curr hb] at h; simp at h
    | false =>
      rw [nextLoop_cons expr d orig n curr hb] at h
      have hnb : ¬ (expr.Next curr).ns < curr.ns := by
        simpa [Time.Before] using hb
      rcases hE curr with ⟨h1, h2, -, -⟩ | ⟨-, h4⟩
      · rcases List.mem_cons.mp h with rfl | hrest
        · exact ⟨(expr.Next curr).ns, h2, rfl, rfl⟩
        · obtain ⟨s, hs, hS, hEnd⟩ := ih (expr.Next curr) w hrest
          exact ⟨s, by rw [← h1]; exact hs, hS, hEnd⟩
      · exact absurd h4 hnb

theorem IsWithin_at_bounds (M : Location → Int → Prop) (cr : CronRange) (expr : Expression)
    (loc : Location) (x ref : Time) (s k : Int) (hd : 0 < cr.duration)
    (he : cr.expr = some expr) (hl : cr.location = some loc)
    (hk : cr.duration = k * Minute) (h64 : cr.duration < 9223372036854775808)
    (hM : ∀ l m, M l m → Minute ∣ m) (hE : LeastMatchAfter M expr)
    (hr : CronRange.toLocation (some loc) x = .ok ref) (hs : M ref.loc s)
    (hx : x.ns = s ∨ x.ns = s + cr.duration) :
    CronRange.IsWithin (some cr) x = .ok true := by
  obtain ⟨hns, -⟩ := toLocation_ok loc x ref hr
  have hss : (CronRange.searchStart cr.duration ref).ns
      = ref.ns - (cr.duration + 999999999) := by
    apply searchStart_ns _ _ hd
    unfold Minute Second at hk
    omega
  have hsl : (CronRange.searchStart cr.duration ref).loc = ref.loc := rfl
  obtain ⟨a, ha⟩ := hM _ _ hs
  unfold Minute Second at ha hk
  rw [IsWithin_complete cr expr loc x ref hd he hl hr]
  rcases hE (CronRange.searchStart cr.duration ref) with ⟨-, h2, h3, h4⟩ | ⟨h5, -⟩
  · rw [hsl] at h2 h4
    obtain ⟨b, hb⟩ := hM _ _ h2
    unfold Minute Second at hb
    have hle := h4 s hs (by omega)
    have hnb : (expr.Next (CronRange.searchStart cr.duration ref)).Before
        (CronRange.searchStart cr.duration ref) = false := by
      simp only [Time.Before, decide_eq_false_iff_not]
      omega
    rw [hnb]
    simp only [Bool.false_eq_true, if_false, Except.ok.injEq, Time.Before, Time.After,
      Time.Equal, Time.Add, Bool.or_eq_true, Bool.and_eq_true, decide_eq_true_eq]
    omega
  · have := h5 s (by rw [hsl]; exact hs)
    omega

theorem length_pos_iff_ne_empty (s : String) : s.length > 0 ↔ s ≠ "" := by
  cases s with
  | mk data =>
    cases data with
    | nil => simp [String.length]
    | cons c cs => simp [String.length, String.ext_iff]

theorem internalNew_nonpositive (env : Externals) (cronExpr tz : String) (td : Int)
    (cp : Parser) (hd : td ≤ 0) :
    internalNew env cronExpr tz td cp = (none, some Error.errZeroDuration) := by
  simp [internalNew, hd]

theorem internalNew_local (env : Externals) (cronExpr tz : String) (td : Int) (cp : Parser)
    (hd : 0 < td) (hz : TrimSpace tz = "" ∨ ToLower (TrimSpace tz) = "local") :
    internalNew env cronExpr tz td cp
      = match env.ParseStrict (TrimSpace cronExpr) with
        | .error e => (none, some (Error.cronParse e))
        | .ok expression =>
          (some { cronExpression := TrimSpace cronExpr, timeZone := "", duration := td,
                  expr := some expression, location := some Location.Local, version := 0 },
            none) := by
  have h1 : ¬ td ≤ 0 := by omega
  by_cases hlocal : ToLower (TrimSpace tz) = "local"
  · simp [internalNew, h1, hlocal]
  · rcases hz with hz | hz
    · simp [internalNew, h1, hz, hlocal]
    · exact absurd hz hlocal

theorem internalNew_zone (env : Externals) (cronExpr tz : String) (td : Int) (cp : Parser)
    (hd : 0 < td) (hz : TrimSpace tz ≠ "") (hlocal : ToLower (TrimSpace tz) ≠ "local") :
    internalNew env cronExpr tz td cp
      = match env.LoadLocation (TrimSpace tz) with
        | .error e => (none, some (Error.badLocation (TrimSpace tz) e))
        | .ok loc =>
          match env.ParseStrict (TrimSpace cronExpr) with
          | .error e => (none, some (Error.cronParse e))
          | .ok expression =>
            (some { cronExpression := TrimSpace cronExpr, timeZone := TrimSpace tz,
                    duration := td, expr := some expression, location := some loc,
                    version := 0 }, none) := by
  have h1 : ¬ td ≤ 0 := by omega
  have h2 : (TrimSpace tz).length > 0 := (length_pos_iff_ne_empty _).mpr hz
  simp only [internalNew, h1, hlocal, if_false, h2, if_true]

theorem internalNew_errorOrder (env : Externals) (cronExpr timeZone : String)
    (duration : Int) (cp : Parser) :
    ErrorOrder env cronExpr timeZone duration
      (internalNew env cronExpr timeZone duration cp) := by
  refine ⟨fun hd => internalNew_nonpositive env cronExpr timeZone duration cp hd, ?_, ?_⟩
  · intro cause hd hz hlocal hload
    rw [internalNew_zone env cronExpr timeZone duration cp hd hz hlocal, hload]
  · intro e hd hzone hp
    by_cases hz : TrimSpace timeZone = "" ∨ ToLower (TrimSpace timeZone) = "local"
    · rw [internalNew_local env cronExpr timeZone duration cp hd hz, hp]
    · have hz1 : TrimSpace timeZone ≠ "" := fun h => hz (Or.inl h)
      have hz2 : ToLower (TrimSpace timeZone) ≠ "local" := fun h => hz (Or.inr h)
      rcases hzone with h | h | ⟨l, hl⟩
      · exact absurd h hz1
      · exact absurd h hz2
      · rw [internalNew_zone env cronExpr timeZone duration cp hd hz1 hz2, hl, hp]

theorem internalNew_atomic (env : Externals) (cronExpr timeZone : String) (duration : Int)
    (cp : Parser) : Atomic (internalNew env cronExpr timeZone duration cp) := by
  by_cases hd : duration ≤ 0
  · exact Or.inr ⟨_, internalNew_nonpositive env cronExpr timeZone duration cp hd⟩
  · have hd1 : 0 < duration := by omega
    by_cases hz : TrimSpace timeZone = "" ∨ ToLower (TrimSpace timeZone) = "local"
    · rw [internalNew_local env cronExpr timeZone duration cp hd1 hz]
      cases env.ParseStrict (TrimSpace cronExpr) with
      | error e => exact Or.inr ⟨_, rfl⟩
      | ok expression => exact Or.inl ⟨_, rfl⟩
    · have hz1 : TrimSpace timeZone ≠ "" := fun h => hz (Or.inl h)
      have hz2 : ToLower (TrimSpace timeZone) ≠ "local" := fun h => hz (Or.inr h)
      rw [internalNew_zone env cronExpr timeZone duration cp hd1 hz1 hz2]
      cases env.LoadLocation (TrimSpace timeZone) with
      | error e => exact Or.inr ⟨_, rfl⟩
      | ok loc =>
        cases env.ParseStrict (TrimSpace cronExpr) with
        | error e => exact Or.inr ⟨_, rfl⟩
        | ok expression => exact Or.inl ⟨_, rfl⟩

theorem Create_of_error (env : Externals) (cronExpr timeZone : String) (duration : Int)
    (cp : Parser) (e : Error)
    (h : internalNew env cronExpr timeZone duration cp = (none, some e)) :
    Create env cronExpr timeZone duration cp = (none, some e) := by
  simp [Create, h]

theorem Create_of_ok (env : Externals) (cronExpr timeZone : String) (duration : Int)
    (cp : Parser) (c : CronRange)
    (h : internalNew env cronExpr timeZone duration cp = (some c, none)) :
    Create env cronExpr timeZone duration cp
      = (some { c with version := Version2 }, none) := by
  simp [Create, h]

/-! ## Occurrence windows -/

/-- C2: for a complete CronRange, with `searchStart` the instant handed to the evaluator,
`rangeStart` the evaluator's answer and `rangeEnd = rangeStart + duration`: when
`rangeStart` is not before `searchStart`, `IsWithin(t)` returns the truth value of
`rangeStart ≤ t ≤ rangeEnd`; and the three-way disjunction of the source is true exactly
when that conjunction holds. -/
theorem IsWithin_iff_between_bounds (cr : CronRange) (expr : Expression) (loc : Location)
    (t : Time) (hd : 0 < cr.duration) (he : cr.expr = some expr)
    (hl : cr.location = some loc) :
    ∃ ref : Time, CronRange.toLocation cr.location t = .ok ref ∧ ref.ns = t.ns ∧
      (((expr.Next (CronRange.searchStart cr.duration ref)).Before
          (CronRange.searchStart cr.duration ref) = false →
        CronRange.IsWithin (some cr) t
          = .ok (decide ((expr.Next (CronRange.searchStart cr.duration ref)).ns ≤ t.ns ∧
              t.ns ≤ ((expr.Next (CronRange.searchStart cr.duration ref)).Add
                cr.duration).ns))) ∧
       ((expr.Next (CronRange.searchStart cr.duration ref)).Before
          (CronRange.searchStart cr.duration ref) = false →
        (CronRange.IsWithin (some cr) t = .ok true ↔
          (expr.Next (CronRange.searchStart cr.duration ref)).ns ≤ t.ns ∧
            t.ns ≤ ((expr.Next (CronRange.searchStart cr.duration ref)).Add
              cr.duration).ns)) ∧
       (((((expr.Next (CronRange.searchStart cr.duration ref)).Before ref
            && ((expr.Next (CronRange.searchStart cr.duration ref)).Add cr.duration).After ref)
          || (expr.Next (CronRange.searchStart cr.duration ref)).Equal ref)
          || ((expr.Next (CronRange.searchStart cr.duration ref)).Add cr.duration).Equal ref)
            = true ↔
          (expr.Next (CronRange.searchStart cr.duration ref)).ns ≤ t.ns ∧
            t.ns ≤ ((expr.Next (CronRange.searchStart cr.duration ref)).Add
              cr.duration).ns)) := by
  obtain ⟨ref, hr, hns, -⟩ := toLocation_some loc t
  refine ⟨ref, by rw [hl]; exact hr, hns, ?_⟩
  have key : ((((expr.Next (CronRange.searchStart cr.duration ref)).Before ref
            && ((expr.Next (CronRange.searchStart cr.duration ref)).Add cr.duration).After ref)
          || (expr.Next (CronRange.searchStart cr.duration ref)).Equal ref)
          || ((expr.Next (CronRange.searchStart cr.duration ref)).Add cr.duration).Equal ref)
            = decide ((expr.Next (CronRange.searchStart cr.duration ref)).ns ≤ t.ns ∧
              t.ns ≤ ((expr.Next (CronRange.searchStart cr.duration ref)).Add
                cr.duration).ns) := by
    rw [Bool.eq_iff_iff]
    simp only [Time.Before, Time.After, Time.Equal, Time.Add, Bool.or_eq_true,
      Bool.and_eq_true, decide_eq_true_eq]
    omega
  have hw := IsWithin_complete cr expr loc t ref hd he hl hr
  refine ⟨?_, ?_, ?_⟩
  · intro hb
    rw [hw, hb, ← key]
    simp
  · intro hb
    rw [hw, hb, key]
    simp
  · rw [key]
    simp

/-- C2 at `*/5 * * * *` in `Asia/Bangkok` with a one-minute window, one minute after a
match. -/
theorem IsWithin_iff_between_bounds_witness :
    ∃ ref : Time,
      CronRange.toLocation every5MinBangkok.location ⟨360000000000, Location.Local⟩
        = .ok ref ∧ ref.ns = (⟨360000000000, Location.Local⟩ : Time).ns ∧
      ((((everyMinutes 5).Next (CronRange.searchStart every5MinBangkok.duration ref)).Before
          (CronRange.searchStart every5MinBangkok.duration ref) = false →
        CronRange.IsWithin (some every5MinBangkok) ⟨360000000000, Location.Local⟩
          = .ok (decide (((everyMinutes 5).Next
                (CronRange.searchStart every5MinBangkok.duration ref)).ns
                  ≤ (⟨360000000000, Location.Local⟩ : Time).ns ∧
              (⟨360000000000, Location.Local⟩ : Time).ns
                ≤ (((everyMinutes 5).Next
                  (CronRange.searchStart every5MinBangkok.duration ref)).Add
                    every5MinBangkok.duration).ns))) ∧
       (((everyMinutes 5).Next (CronRange.searchStart every5MinBangkok.duration ref)).Before
          (CronRange.searchStart every5MinBangkok.duration ref) = false →
        (CronRange.IsWithin (some every5MinBangkok) ⟨360000000000, Location.Local⟩
            = .ok true ↔
          ((everyMinutes 5).Next (CronRange.searchStart every5MinBangkok.duration ref)).ns
              ≤ (⟨360000000000, Location.Local⟩ : Time).ns ∧
            (⟨360000000000, Location.Local⟩ : Time).ns
              ≤ (((everyMinutes 5).Next
                (CronRange.searchStart every5MinBangkok.duration ref)).Add
                  every5MinBangkok.duration).ns)) ∧
       ((((((everyMinutes 5).Next
              (CronRange.searchStart every5MinBangkok.duration ref)).Before ref
            && (((everyMinutes 5).Next
              (CronRange.searchStart every5MinBangkok.duration ref)).Add
                every5MinBangkok.duration).After ref)
          || ((everyMinutes 5).Next
              (CronRange.searchStart every5MinBangkok.duration ref)).Equal ref)
          || (((everyMinutes 5).Next
              (CronRange.searchStart every5MinBangkok.duration ref)).Add
                every5MinBangkok.duration).Equal ref)
            = true ↔
          ((everyMinutes 5).Next (CronRange.searchStart every5MinBangkok.duration ref)).ns
              ≤ (⟨360000000000, Location.Local⟩ : Time).ns ∧
            (⟨360000000000, Location.Local⟩ : Time).ns
              ≤ (((everyMinutes 5).Next
                (CronRange.searchStart every5MinBangkok.duration ref)).Add
                  every5MinBangkok.duration).ns)) :=
  IsWithin_iff_between_bounds every5MinBangkok (everyMinutes 5)
    (Location.Zone "Asia/Bangkok") ⟨360000000000, Location.Local⟩ (by decide) rfl rfl

/-- C3, evaluated where it fails.  The evaluator of `* * * * *` answers with the least
whole minute strictly after its argument and consecutive matches are one minute apart.
With a window of one minute the instant 00:01:00.5 lies in the window that starts at
00:01:00, and with a window of 59.5 seconds the match instant 00:01:00 lies in its own
window; `IsWithin` returns false for both. -/
theorem IsWithin_misses_window_within_spacing :
    LeastMatchAfter (fun _ m => ((1 : Nat) : Int) * Minute ∣ m) (everyMinutes 1) ∧
    (∀ m n : Int, ((1 : Nat) : Int) * Minute ∣ m → ((1 : Nat) : Int) * Minute ∣ n → m < n →
      (everyMinuteFor (1 * Minute)).duration ≤ n - m ∧
        (everyMinuteFor 59500000000).duration ≤ n - m) ∧
    (((1 : Nat) : Int) * Minute ∣ 60000000000 ∧
      (60000000000 : Int) ≤ 60500000000 ∧
      (60500000000 : Int) ≤ 60000000000 + (everyMinuteFor (1 * Minute)).duration ∧
      CronRange.IsWithin (some (everyMinuteFor (1 * Minute))) ⟨60500000000, Location.Local⟩
        = .ok false) ∧
    ((60000000000 : Int) ≤ 60000000000 + (everyMinuteFor 59500000000).duration ∧
      CronRange.IsWithin (some (everyMinuteFor 59500000000)) ⟨60000000000, Location.Local⟩
        = .ok false) := by
  refine ⟨everyMinutes_least 1 (by decide), ?_, ⟨?_, by decide, by decide, rfl⟩,
    by decide, rfl⟩
  · rintro m n ⟨a, rfl⟩ ⟨b, rfl⟩ h
    simp only [everyMinuteFor, Minute, Second] at h ⊢
    omega
  · exact ⟨1, by decide⟩

/-- C4: for a complete CronRange whose duration is a whole number of minutes, with an
evaluator that answers with the least whole-minute match strictly after its argument,
`NextOccurrences(t, count)` returns a list and `IsWithin` is true at the start and at the
end of every window in it. -/
theorem window_bounds_are_within (M : Location → Int → Prop) (cr : CronRange)
    (expr : Expression) (loc : Location) (t : Time) (count k : Int)
    (hd : 0 < cr.duration) (he : cr.expr = some expr) (hl : cr.location = some loc)
    (hc : 1 ≤ count) (hk : cr.duration = k * Minute)
    (h64 : cr.duration < 9223372036854775808)
    (hM : ∀ l m, M l m → Minute ∣ m) (hE : LeastMatchAfter M expr) :
    ∃ occurs : List TimeRange,
      CronRange.NextOccurrences (some cr) t count = .ok occurs ∧
      ∀ w ∈ occurs, CronRange.IsWithin (some cr) w.Start = .ok true ∧
        CronRange.IsWithin (some cr) w.End = .ok true := by
  obtain ⟨ref, hr, -, hloc⟩ := toLocation_some loc t
  refine ⟨_, NextOccurrences_complete cr expr loc t ref count hd he hl hc hr, ?_⟩
  intro w hw
  obtain ⟨s, hs, hS, hEnd⟩ := nextLoop_mem M expr cr.duration t.loc hE _ ref w hw
  obtain ⟨r1, hr1, -, hl1⟩ := toLocation_some loc w.Start
  obtain ⟨r2, hr2, -, hl2⟩ := toLocation_some loc w.End
  have e1 : r1.loc = ref.loc := by rw [hl1, hloc, hS]
  have e2 : r2.loc = ref.loc := by rw [hl2, hloc, hEnd]
  constructor
  · exact IsWithin_at_bounds M cr expr loc w.Start r1 s k hd he hl hk h64 hM hE hr1
      (by rw [e1]; exact hs) (Or.inl (by rw [hS]))
  · exact IsWithin_at_bounds M cr expr loc w.End r2 s k hd he hl hk h64 hM hE hr2
      (by rw [e2]; exact hs) (Or.inr (by rw [hEnd]))

/-- C4 at `*/5 * * * *` in `Asia/Bangkok` with a one-minute window, three occurrences
after the epoch. -/
theorem window_bounds_are_within_witness :
    ∃ occurs : List TimeRange,
      CronRange.NextOccurrences (some every5MinBangkok) ⟨0, Location.Local⟩ 3 = .ok occurs ∧
      ∀ w ∈ occurs, CronRange.IsWithin (some every5MinBangkok) w.Start = .ok true ∧
        CronRange.IsWithin (some every5MinBangkok) w.End = .ok true :=
  window_bounds_are_within (fun _ m => ((5 : Nat) : Int) * Minute ∣ m) every5MinBangkok
    (everyMinutes 5) (Location.Zone "Asia/Bangkok") ⟨0, Location.Local⟩ 3 1
    (by decide) rfl rfl (by decide) (by decide) (by decide)
    (fun _ _ h => dvd_of_mul_left_dvd h) (everyMinutes_least 5 (by decide))

/-- C5, evaluated where it fails.  At the zero time the evaluator answers with its
argument; the answer is not before the reference, so the loop goes on: both windows of
`NextOccurrences(zeroTime, 2)` start at the given time itself, none strictly later. -/
theorem NextOccurrences_repeats_reference_at_zero_time :
    (zeroGuarded (everyMinutes 1)).Next zeroTime = zeroTime ∧
    CronRange.NextOccurrences (some everyMinuteGuarded) zeroTime 2
      = .ok [⟨zeroTime, zeroTime.Add (1 * Minute)⟩, ⟨zeroTime, zeroTime.Add (1 * Minute)⟩] ∧
    ¬ (∀ occurs, CronRange.NextOccurrences (some everyMinuteGuarded) zeroTime 2 = .ok occurs →
        ∀ w ∈ occurs, zeroTime.ns < w.Start.ns) := by
  refine ⟨rfl, rfl, ?_⟩
  intro h
  have := h [⟨zeroTime, zeroTime.Add (1 * Minute)⟩, ⟨zeroTime, zeroTime.Add (1 * Minute)⟩]
    rfl ⟨zeroTime, zeroTime.Add (1 * Minute)⟩ (by simp)
  exact absurd this (by decide)

/-! ## Construction -/

/-- C6: `Create` returns an error exactly when the duration is not positive, or the
trimmed zone name is neither empty nor `local` in some letter case and the zone database
fails on it, or the cron text parser rejects the trimmed cron text; in every other case it
returns a CronRange and no error. -/
theorem Create_error_iff (env : Externals) (cronExpr timeZone : String) (duration : Int)
    (cp : Parser) :
    ((Create env cronExpr timeZone duration cp).2 ≠ none ↔
      (duration ≤ 0 ∨
        (TrimSpace timeZone ≠ "" ∧ ToLower (TrimSpace timeZone) ≠ "local" ∧
          ∃ e, env.LoadLocation (TrimSpace timeZone) = .error e) ∨
        ∃ e, env.ParseStrict (TrimSpace cronExpr) = .error e)) ∧
    ((Create env cronExpr timeZone duration cp).2 = none →
      ∃ c, Create env cronExpr timeZone duration cp = (some c, none)) := by
  by_cases hd : duration ≤ 0
  · rw [Create_of_error _ _ _ _ _ _ (internalNew_nonpositive env cronExpr timeZone duration cp hd)]
    simp [hd]
  · have hd1 : 0 < duration := by omega
    by_cases hz : TrimSpace timeZone = "" ∨ ToLower (TrimSpace timeZone) = "local"
    · have hnz : ¬ (TrimSpace timeZone ≠ "" ∧ ToLower (TrimSpace timeZone) ≠ "local" ∧
          ∃ e, env.LoadLocation (TrimSpace timeZone) = .error e) := by
        rintro ⟨h1, h2, -⟩
        rcases hz with h | h
        · exact h1 h
        · exact h2 h
      have hn := internalNew_local env cronExpr timeZone duration cp hd1 hz
      cases hp : env.ParseStrict (TrimSpace cronExpr) with
      | error e =>
        rw [hp] at hn
        rw [Create_of_error _ _ _ _ _ _ hn]
        simp
      | ok expression =>
        rw [hp] at hn
        rw [Create_of_ok _ _ _ _ _ _ hn]
        simp [hd, hnz]
    · have hz1 : TrimSpace timeZone ≠ "" := fun h => hz (Or.inl h)
      have hz2 : ToLower (TrimSpace timeZone) ≠ "local" := fun h => hz (Or.inr h)
      have hn := internalNew_zone env cronExpr timeZone duration cp hd1 hz1 hz2
      cases hload : env.LoadLocation (TrimSpace timeZone) with
      | error e =>
        rw [hload] at hn
        rw [Create_of_error _ _ _ _ _ _ hn]
        simp [hz1, hz2]
      | ok loc =>
        rw [hload] at hn
        cases hp : env.ParseStrict (TrimSpace cronExpr) with
        | error e =>
          rw [hp] at hn
          rw [Create_of_error _ _ _ _ _ _ hn]
          simp
        | ok expression =>
          rw [hp] at hn
          rw [Create_of_ok _ _ _ _ _ _ hn]
          simp [hd]

/-- C7: the error of `internalNew`, of `Create` and of `New` is fixed by the first failing
check in the order duration, zone, cron text: the invalid-duration error for a duration
that is not positive, whatever the texts are; otherwise the bad-location error carrying
the trimmed zone name when the zone database fails, whatever the cron text is; otherwise
the cron parser's own error. -/
theorem constructor_error_order (env : Externals) (cronExpr timeZone : String)
    (duration : Int) (durationMin : Nat) (cp : Parser) :
    ErrorOrder env cronExpr timeZone duration
      (internalNew env cronExpr timeZone duration cp) ∧
    ErrorOrder env cronExpr timeZone duration (Create env cronExpr timeZone duration cp) ∧
    ErrorOrder env cronExpr timeZone (toInt64 (toInt64 (durationMin : Int) * Minute))
      (New env cronExpr timeZone durationMin) := by
  have h := internalNew_errorOrder env cronExpr timeZone duration cp
  refine ⟨h, ⟨?_, ?_, ?_⟩, internalNew_errorOrder env cronExpr timeZone _ cronParser⟩
  · intro hd
    exact Create_of_error _ _ _ _ _ _ (h.1 hd)
  · intro cause hd hz hlocal hload
    exact Create_of_error _ _ _ _ _ _ (h.2.1 cause hd hz hlocal hload)
  · intro e hd hzone hp
    exact Create_of_error _ _ _ _ _ _ (h.2.2 e hd hzone hp)

/-- C7 on three inputs: a zero duration with a bad zone and a bad cron text, a bad zone
with a bad cron text, and a bad cron text alone. -/
theorem constructor_error_order_witness :
    Create sampleExternals "every minute" " Mars " 0 cronParser
      = (none, some Error.errZeroDuration) ∧
    Create sampleExternals "every minute" " Mars " 5 cronParser
      = (none, some (Error.badLocation "Mars" "unknown time zone Mars")) ∧
    Create sampleExternals " every minute " "Etc/UTC" 5 cronParser
      = (none, some (Error.cronParse "syntax error")) :=
  ⟨(constructor_error_order sampleExternals "every minute" " Mars " 0 0 cronParser).2.1.1
      (by decide),
   (constructor_error_order sampleExternals "every minute" " Mars " 5 0 cronParser).2.1.2.1
      "unknown time zone Mars" (by decide) (by decide) (by decide) rfl,
   (constructor_error_order sampleExternals " every minute " "Etc/UTC" 5 0 cronParser).2.1.2.2
      "syntax error" (by decide) (Or.inr (Or.inr ⟨Location.Zone "Etc/UTC", rfl⟩)) rfl⟩

/-- C8: `internalNew`, `Create` and `New` return either a CronRange and no error, or an
error and no CronRange, for every input. -/
theorem construction_is_atomic (env : Externals) (cronExpr timeZone : String)
    (duration : Int) (durationMin : Nat) (cp : Parser) :
    Atomic (internalNew env cronExpr timeZone duration cp) ∧
    Atomic (Create env cronExpr timeZone duration cp) ∧
    Atomic (New env cronExpr timeZone durationMin) := by
  refine ⟨internalNew_atomic _ _ _ _ _, ?_, internalNew_atomic _ _ _ _ _⟩
  rcases internalNew_atomic env cronExpr timeZone duration cp with ⟨c, hc⟩ | ⟨e, he⟩
  · exact Or.inl ⟨_, Create_of_ok _ _ _ _ _ _ hc⟩
  · exact Or.inr ⟨_, Create_of_error _ _ _ _ _ _ he⟩

/-- C9: for a zone name that is empty or `local` in some letter case once trimmed, a cron
text the parser accepts and a positive duration, `Create` and `New` succeed whatever the
zone database is, also for any other zone database in its place; `TimeZone()` is the empty
string and the location is the process-local zone. -/
theorem local_zone_skips_resolver (env : Externals) (cronExpr timeZone : String)
    (duration : Int) (durationMin : Nat) (cp : Parser) (expression : Expression)
    (hz : TrimSpace timeZone = "" ∨ ToLower (TrimSpace timeZone) = "local")
    (hp : env.ParseStrict (TrimSpace cronExpr) = .ok expression) (hd : 0 < duration)
    (hm : toInt64 (toInt64 (durationMin : Int) * Minute) = duration) :
    ∃ c : CronRange,
      Create env cronExpr timeZone duration cp = (some c, none) ∧
      New env cronExpr timeZone durationMin = (some { c with version := Version1 }, none) ∧
      CronRange.TimeZone (some c) = .ok "" ∧
      c.location = some Location.Local ∧
      ∀ resolver : String → Except String Location,
        Create { env with LoadLocation := resolver } cronExpr timeZone duration cp
          = (some c, none) ∧
        New { env with LoadLocation := resolver } cronExpr timeZone durationMin
          = (some { c with version := Version1 }, none) := by
  have h1 := internalNew_local env cronExpr timeZone duration cp hd hz
  have h3 := internalNew_local env cronExpr timeZone duration cronParser hd hz
  rw [hp] at h1 h3
  refine ⟨_, Create_of_ok _ _ _ _ _ _ h1, ?_, ?_, rfl, ?_⟩
  · unfold New
    rw [hm, h3]
    rfl
  · have : ¬ duration ≤ 0 := by omega
    simp [CronRange.TimeZone, CronRange.checkPrecondition, this]
  · intro resolver
    have h2 := internalNew_local { env with LoadLocation := resolver } cronExpr timeZone
      duration cp hd hz
    have h4 := internalNew_local { env with LoadLocation := resolver } cronExpr timeZone
      duration cronParser hd hz
    simp only [hp] at h2 h4
    refine ⟨Create_of_ok _ _ _ _ _ _ h2, ?_⟩
    unfold New
    rw [hm, h4]
    rfl

/-- C9 at the zone name ` Local ` and five minutes, with a zone database that knows no
zone. -/
theorem local_zone_skips_resolver_witness :
    ∃ c : CronRange,
      Create { sampleExternals with LoadLocation := noZones } " */5 * * * * " " Local "
        300000000000 cronParser = (some c, none) ∧
      New { sampleExternals with LoadLocation := noZones } " */5 * * * * " " Local " 5
        = (some { c with version := Version1 }, none) ∧
      CronRange.TimeZone (some c) = .ok "" ∧
      c.location = some Location.Local ∧
      ∀ resolver : String → Except String Location,
        Create { { sampleExternals with LoadLocation := noZones } with
            LoadLocation := resolver } " */5 * * * * " " Local " 300000000000 cronParser
          = (some c, none) ∧
        New { { sampleExternals with LoadLocation := noZones } with
            LoadLocation := resolver } " */5 * * * * " " Local " 5
          = (some { c with version := Version1 }, none) :=
  local_zone_skips_resolver { sampleExternals with LoadLocation := noZones } " */5 * * * * "
    " Local " 300000000000 5 cronParser (everyMinutes 5) (Or.inr (by decide)) rfl (by decide)
    (by decide)

/-- C10: after a successful `Create(cronExpr, timeZone, duration, cp)`,
`CronExpression()` is the trimmed cron text, the schedule handle is what the parser
returned for that same trimmed text, `TimeZone()` is the trimmed zone name, or the empty
string when that is `local` in some letter case, and `Duration()` is the duration
given. -/
theorem accessors_return_constructor_inputs (env : Externals) (cronExpr timeZone : String)
    (duration : Int) (cp : Parser) (c : CronRange)
    (h : Create env cronExpr timeZone duration cp = (some c, none)) :
    CronRange.CronExpression (some c) = .ok (TrimSpace cronExpr) ∧
    (∃ expression, env.ParseStrict (TrimSpace cronExpr) = .ok expression ∧
      c.expr = some expression) ∧
    CronRange.TimeZone (some c)
      = .ok (if ToLower (TrimSpace timeZone) = "local" then "" else TrimSpace timeZone) ∧
    CronRange.Duration (some c) = .ok duration := by
  by_cases hd : duration ≤ 0
  · rw [Create_of_error _ _ _ _ _ _
      (internalNew_nonpositive env cronExpr timeZone duration cp hd)] at h
    simp at h
  · have hd1 : 0 < duration := by omega
    by_cases hz : TrimSpace timeZone = "" ∨ ToLower (TrimSpace timeZone) = "local"
    · have hn := internalNew_local env cronExpr timeZone duration cp hd1 hz
      have htz : (if ToLower (TrimSpace timeZone) = "local" then ""
          else TrimSpace timeZone) = "" := by
        rcases hz with h0 | h0
        · rw [h0]; simp
        · simp [h0]
      cases hp : env.ParseStrict (TrimSpace cronExpr) with
      | error e =>
        rw [hp] at hn
        rw [Create_of_error _ _ _ _ _ _ hn] at h
        simp at h
      | ok expression =>
        rw [hp] at hn
        rw [Create_of_ok _ _ _ _ _ _ hn] at h
        simp only [Prod.mk.injEq, Option.some.injEq, and_true] at h
        subst h
        rw [htz]
        simp [CronRange.CronExpression, CronRange.TimeZone, CronRange.Duration,
          CronRange.checkPrecondition, hd]
    · have hz1 : TrimSpace timeZone ≠ "" := fun h => hz (Or.inl h)
      have hz2 : ToLower (TrimSpace timeZone) ≠ "local" := fun h => hz (Or.inr h)
      have hn := internalNew_zone env cronExpr timeZone duration cp hd1 hz1 hz2
      cases hload : env.LoadLocation (TrimSpace timeZone) with
      | error e =>
        rw [hload] at hn
        rw [Create_of_error _ _ _ _ _ _ hn] at h
        simp at h
      | ok loc =>
        rw [hload] at hn
        cases hp : env.ParseStrict (TrimSpace cronExpr) with
        | error e =>
          rw [hp] at hn
          rw [Create_of_error _ _ _ _ _ _ hn] at h
          simp at h
        | ok expression =>
          rw [hp] at hn
          rw [Create_of_ok _ _ _ _ _ _ hn] at h
          simp only [Prod.mk.injEq, Option.some.injEq, and_true] at h
          subst h
          simp [CronRange.CronExpression, CronRange.TimeZone, CronRange.Duration,
            CronRange.checkPrecondition, hd, hz2]

/-- C10 at `Create("  */5 * * * * ", " Asia/Bangkok ", 90 s, cronParser)`. -/
theorem accessors_return_constructor_inputs_witness :
    CronRange.CronExpression (some { every5MinBangkok with
        duration := 90000000000, version := Version2 })
      = .ok (TrimSpace "  */5 * * * * ") ∧
    (∃ expression, sampleExternals.ParseStrict (TrimSpace "  */5 * * * * ") = .ok expression ∧
      ({ every5MinBangkok with duration := 90000000000, version := Version2 } : CronRange).expr
        = some expression) ∧
    CronRange.TimeZone (some { every5MinBangkok with
        duration := 90000000000, version := Version2 })
      = .ok (if ToLower (TrimSpace " Asia/Bangkok ") = "local" then ""
          else TrimSpace " Asia/Bangkok ") ∧
    CronRange.Duration (some { every5MinBangkok with
        duration := 90000000000, version := Version2 }) = .ok 90000000000 :=
  accessors_return_constructor_inputs sampleExternals "  */5 * * * * " " Asia/Bangkok "
    90000000000 cronParser _ (by rfl)

/-! ## Completeness and panics -/

theorem internalNew_ok_inv (env : Externals) (cronExpr tz : String) (td : Int) (cp : Parser)
    (c : CronRange) (h : internalNew env cronExpr tz td cp = (some c, none)) :
    0 < td ∧ ∃ (expression : Expression) (loc : Location),
      env.ParseStrict (TrimSpace cronExpr) = .ok expression ∧
      c = { cronExpression := TrimSpace cronExpr,
            timeZone := (if ToLower (TrimSpace tz) = "local" then "" else TrimSpace tz),
            duration := td, expr := some expression, location := some loc, version := 0 } ∧
      (((TrimSpace tz = "" ∨ ToLower (TrimSpace tz) = "local") ∧ loc = Location.Local) ∨
       (TrimSpace tz ≠ "" ∧ ToLower (TrimSpace tz) ≠ "local" ∧
          env.LoadLocation (TrimSpace tz) = .ok loc)) := by
  by_cases hd : td ≤ 0
  · rw [internalNew_nonpositive env cronExpr tz td cp hd] at h
    simp at h
  · have hd1 : 0 < td := by omega
    refine ⟨hd1, ?_⟩
    by_cases hz : TrimSpace tz = "" ∨ ToLower (TrimSpace tz) = "local"
    · have htz : (if ToLower (TrimSpace tz) = "local" then "" else TrimSpace tz) = "" := by
        rcases hz with h0 | h0
        · rw [h0]; simp
        · simp [h0]
      rw [internalNew_local env cronExpr tz td cp hd1 hz] at h
      cases hp : env.ParseStrict (TrimSpace cronExpr) with
      | error e => rw [hp] at h; simp at h
      | ok expression =>
        rw [hp] at h
        simp only [Prod.mk.injEq, Option.some.injEq, and_true] at h
        exact ⟨expression, Location.Local, rfl, by rw [htz]; exact h.symm, Or.inl ⟨hz, rfl⟩⟩
    · have hz1 : TrimSpace tz ≠ "" := fun h0 => hz (Or.inl h0)
      have hz2 : ToLower (TrimSpace tz) ≠ "local" := fun h0 => hz (Or.inr h0)
      rw [internalNew_zone env cronExpr tz td cp hd1 hz1 hz2] at h
      cases hload : env.LoadLocation (TrimSpace tz) with
      | error e => rw [hload] at h; simp at h
      | ok loc =>
        rw [hload] at h
        cases hp : env.ParseStrict (TrimSpace cronExpr) with
        | error e => rw [hp] at h; simp at h
        | ok expression =>
          rw [hp] at h
          simp only [Prod.mk.injEq, Option.some.injEq, and_true] at h
          exact ⟨expression, loc, rfl, by simp only [hz2, if_false]; exact h.symm,
            Or.inr ⟨hz1, hz2, rfl⟩⟩

theorem Create_ok_inv (env : Externals) (cronExpr tz : String) (td : Int) (cp : Parser)
    (c : CronRange) (h : Create env cronExpr tz td cp = (some c, none)) :
    ∃ c0, internalNew env cronExpr tz td cp = (some c0, none) ∧
      c = { c0 with version := Version2 } := by
  rcases internalNew_atomic env cronExpr tz td cp with ⟨c0, h0⟩ | ⟨e, h0⟩
  · rw [Create_of_ok _ _ _ _ _ _ h0] at h
    simp only [Prod.mk.injEq, Option.some.injEq, and_true] at h
    exact ⟨c0, h0, h.symm⟩
  · rw [Create_of_error _ _ _ _ _ _ h0] at h
    simp at h

theorem complete_no_panic (cr : CronRange) (expr : Expression) (loc : Location)
    (hd : 0 < cr.duration) (he : cr.expr = some expr) (hl : cr.location = some loc) :
    CronRange.checkPrecondition (some cr) = .ok () ∧
    CronRange.Duration (some cr) = .ok cr.duration ∧
    CronRange.TimeZone (some cr) = .ok cr.timeZone ∧
    CronRange.CronExpression (some cr) = .ok cr.cronExpression ∧
    (∀ t : Time, ∃ b : Bool, CronRange.IsWithin (some cr) t = .ok b) ∧
    (∀ (t : Time) (count : Int), 1 ≤ count →
      ∃ occurs : List TimeRange, CronRange.NextOccurrences (some cr) t count = .ok occurs) := by
  have h1 : ¬ cr.duration ≤ 0 := by omega
  refine ⟨by simp [CronRange.checkPrecondition, h1, he],
    by simp [CronRange.Duration, CronRange.checkPrecondition, h1, he],
    by simp [CronRange.TimeZone, CronRange.checkPrecondition, h1, he],
    by simp [CronRange.CronExpression, CronRange.checkPrecondition, h1, he], ?_, ?_⟩
  · intro t
    obtain ⟨ref, hr, -, -⟩ := toLocation_some loc t
    rw [IsWithin_complete cr expr loc t ref hd he hl hr]
    split
    · exact ⟨false, rfl⟩
    · exact ⟨_, rfl⟩
  · intro t count hc
    obtain ⟨ref, hr, -, -⟩ := toLocation_some loc t
    exact ⟨_, NextOccurrences_complete cr expr loc t ref count hd he hl hc hr⟩

theorem nextLoop_length_le (expr : Expression) (d : Int) (orig : Location) (n : Nat) :
    ∀ curr : Time, (CronRange.nextLoop expr d orig n curr []).length ≤ n := by
  induction n with
  | zero => intro curr; simp [CronRange.nextLoop]
  | succ n ih =>
    intro curr
    cases hb : (expr.Next curr).Before curr with
    | true => rw [nextLoop_stop expr d orig n curr hb]; simp
    | false =>
      rw [nextLoop_cons expr d orig n curr hb]
      have := ih (expr.Next curr)
      simp only [List.length_cons]
      omega

theorem nextLoop_length_eq (expr : Expression) (d : Int) (orig : Location) (n : Nat) :
    ∀ curr : Time,
      (∀ i : Nat, i < n →
        (expr.Next (expr.Next^[i] curr)).Before (expr.Next^[i] curr) = false) →
      (CronRange.nextLoop expr d orig n curr []).length = n := by
  induction n with
  | zero => intro curr _; simp [CronRange.nextLoop]
  | succ n ih =>
    intro curr h
    have hb : (expr.Next curr).Before curr = false := h 0 (by omega)
    rw [nextLoop_cons expr d orig n curr hb]
    have := ih (expr.Next curr) (fun i hi => by
      have := h (i + 1) (by omega)
      simpa [Function.iterate_succ] using this)
    simp only [List.length_cons]
    omega

/-- C11: a CronRange that `Create` or `New` returns without error is complete: its
duration is positive and both handles are present; `checkPrecondition` passes, the
accessors return the fields, `IsWithin` returns a boolean for every time and
`NextOccurrences` returns a list for every time and every `count ≥ 1`. -/
theorem constructed_is_complete (env : Externals) (cronExpr timeZone : String)
    (duration : Int) (durationMin : Nat) (cp : Parser) (c : CronRange)
    (h : Create env cronExpr timeZone duration cp = (some c, none) ∨
      New env cronExpr timeZone durationMin = (some c, none)) :
    0 < c.duration ∧ c.expr.isSome = true ∧ c.location.isSome = true ∧
    CronRange.checkPrecondition (some c) = .ok () ∧
    CronRange.Duration (some c) = .ok c.duration ∧
    CronRange.TimeZone (some c) = .ok c.timeZone ∧
    CronRange.CronExpression (some c) = .ok c.cronExpression ∧
    (∀ t : Time, ∃ b : Bool, CronRange.IsWithin (some c) t = .ok b) ∧
    (∀ (t : Time) (count : Int), 1 ≤ count →
      ∃ occurs : List TimeRange, CronRange.NextOccurrences (some c) t count = .ok occurs) := by
  have key : ∃ (expr : Expression) (loc : Location),
      0 < c.duration ∧ c.expr = some expr ∧ c.location = some loc := by
    rcases h with h | h
    · obtain ⟨c0, h0, rfl⟩ := Create_ok_inv env cronExpr timeZone duration cp c h
      obtain ⟨hd, expression, loc, -, rfl, -⟩ := internalNew_ok_inv _ _ _ _ _ _ h0
      exact ⟨expression, loc, hd, rfl, rfl⟩
    · obtain ⟨hd, expression, loc, -, rfl, -⟩ := internalNew_ok_inv _ _ _ _ _ _ h
      exact ⟨expression, loc, hd, rfl, rfl⟩
  obtain ⟨expr, loc, hd, he, hl⟩ := key
  refine ⟨hd, by simp [he], by simp [hl], complete_no_panic c expr loc hd he hl⟩

/-- C11 at `New("*/5 * * * *", "Asia/Bangkok", 1)`. -/
theorem constructed_is_complete_witness :
    0 < every5MinBangkok.duration ∧ every5MinBangkok.expr.isSome = true ∧
    every5MinBangkok.location.isSome = true ∧
    CronRange.checkPrecondition (some every5MinBangkok) = .ok () ∧
    CronRange.Duration (some every5MinBangkok) = .ok every5MinBangkok.duration ∧
    CronRange.TimeZone (some every5MinBangkok) = .ok every5MinBangkok.timeZone ∧
    CronRange.CronExpression (some every5MinBangkok) = .ok every5MinBangkok.cronExpression ∧
    (∀ t : Time, ∃ b : Bool, CronRange.IsWithin (some every5MinBangkok) t = .ok b) ∧
    (∀ (t : Time) (count : Int), 1 ≤ count →
      ∃ occurs : List TimeRange,
        CronRange.NextOccurrences (some every5MinBangkok) t count = .ok occurs) :=
  constructed_is_complete sampleExternals "*/5 * * * *" "Asia/Bangkok" 0 1 cronParser
    every5MinBangkok (Or.inr (by rfl))

theorem panics_iff_general (cr : Option CronRange) (t : Time)
    (count : Int) :
    (Panics (CronRange.NextOccurrences cr t count) ↔
      (FailsPrecondition cr ∨ count ≤ 0 ∨ LocationIsNil cr)) ∧
    (Panics (CronRange.IsWithin cr t) ↔ (FailsPrecondition cr ∨ LocationIsNil cr)) ∧
    (Panics (CronRange.Duration cr) ↔ FailsPrecondition cr) ∧
    (Panics (CronRange.TimeZone cr) ↔ FailsPrecondition cr) ∧
    (Panics (CronRange.CronExpression cr) ↔ FailsPrecondition cr) := by
  cases cr with
  | none =>
    simp [Panics, FailsPrecondition, LocationIsNil, CronRange.NextOccurrences,
      CronRange.IsWithin, CronRange.Duration, CronRange.TimeZone, CronRange.CronExpression,
      CronRange.checkPrecondition]
  | some c =>
    by_cases hd : c.duration ≤ 0
    · simp [Panics, FailsPrecondition, LocationIsNil, CronRange.NextOccurrences,
        CronRange.IsWithin, CronRange.Duration, CronRange.TimeZone,
        CronRange.CronExpression, CronRange.checkPrecondition, hd]
    · cases he : c.expr with
      | none =>
        simp [Panics, FailsPrecondition, LocationIsNil, CronRange.NextOccurrences,
          CronRange.IsWithin, CronRange.Duration, CronRange.TimeZone,
          CronRange.CronExpression, CronRange.checkPrecondition, hd, he]
      | some expr =>
        have hacc : (Panics (CronRange.Duration (some c)) ↔ FailsPrecondition (some c)) ∧
            (Panics (CronRange.TimeZone (some c)) ↔ FailsPrecondition (some c)) ∧
            (Panics (CronRange.CronExpression (some c)) ↔ FailsPrecondition (some c)) := by
          simp [Panics, FailsPrecondition, CronRange.Duration, CronRange.TimeZone,
            CronRange.CronExpression, CronRange.checkPrecondition, hd, he]
        cases hl : c.location with
        | none =>
          refine ⟨?_, ?_, hacc⟩
          · by_cases hc : count ≤ 0
            · simp [Panics, FailsPrecondition, LocationIsNil, CronRange.NextOccurrences,
                CronRange.checkPrecondition, hd, he, hl, hc]
            · simp [Panics, FailsPrecondition, LocationIsNil, CronRange.NextOccurrences,
                CronRange.checkPrecondition, CronRange.toLocation, timeIn, hd, he, hl, hc]
          · simp [Panics, FailsPrecondition, LocationIsNil, CronRange.IsWithin,
              CronRange.checkPrecondition, CronRange.toLocation, timeIn, hd, he, hl]
        | some loc =>
          have hd1 : 0 < c.duration := by omega
          obtain ⟨-, -, -, -, hw, hn⟩ := complete_no_panic c expr loc hd1 he hl
          refine ⟨?_, ?_, hacc⟩
          · by_cases hc : count ≤ 0
            · simp [Panics, FailsPrecondition, LocationIsNil, CronRange.NextOccurrences,
                CronRange.checkPrecondition, hd, he, hl, hc]
            · obtain ⟨occurs, ho⟩ := hn t count (by omega)
              simp [Panics, FailsPrecondition, LocationIsNil, ho, hd, he, hl, hc]
          · obtain ⟨b, hb⟩ := hw t
            simp [Panics, FailsPrecondition, LocationIsNil, hb, hd, he, hl]

/-- C12: for a receiver whose two handles are both present or both absent (the nil
receiver, the zero value, every constructed value), `NextOccurrences(t, count)` panics
exactly when the receiver is nil, or its duration is not positive, or its schedule handle
is nil, or `count ≤ 0`; `IsWithin` and the accessors `Duration`, `TimeZone` and
`CronExpression` panic exactly when the receiver is nil, or its duration is not positive,
or its schedule handle is nil. -/
theorem panics_iff_failed_precondition (cr : Option CronRange) (t : Time) (count : Int)
    (hinv : HandlesTogether cr) :
    (Panics (CronRange.NextOccurrences cr t count) ↔ (FailsPrecondition cr ∨ count ≤ 0)) ∧
    (Panics (CronRange.IsWithin cr t) ↔ FailsPrecondition cr) ∧
    (Panics (CronRange.Duration cr) ↔ FailsPrecondition cr) ∧
    (Panics (CronRange.TimeZone cr) ↔ FailsPrecondition cr) ∧
    (Panics (CronRange.CronExpression cr) ↔ FailsPrecondition cr) := by
  obtain ⟨h1, h2, h3, h4, h5⟩ := panics_iff_general cr t count
  have hloc : LocationIsNil cr → FailsPrecondition cr := by
    cases cr with
    | none => intro h; exact h.elim
    | some c =>
      intro h
      exact Or.inr (hinv.mpr h)
  refine ⟨?_, ?_, h3, h4, h5⟩
  · rw [h1]
    constructor
    · rintro (h | h | h)
      · exact Or.inl h
      · exact Or.inr h
      · exact Or.inl (hloc h)
    · rintro (h | h)
      · exact Or.inl h
      · exact Or.inr (Or.inl h)
  · rw [h2]
    constructor
    · rintro (h | h)
      · exact h
      · exact hloc h
    · intro h
      exact Or.inl h

/-- C12 at a constructed value, `*/5 * * * *` in `Asia/Bangkok`, with `count = 0`, and at
the zero value and the nil receiver. -/
theorem panics_iff_failed_precondition_witness :
    ((Panics (CronRange.NextOccurrences (some every5MinBangkok) ⟨0, Location.Local⟩ 0) ↔
      (FailsPrecondition (some every5MinBangkok) ∨ (0 : Int) ≤ 0)) ∧
    (Panics (CronRange.IsWithin (some every5MinBangkok) ⟨0, Location.Local⟩) ↔
      FailsPrecondition (some every5MinBangkok)) ∧
    (Panics (CronRange.Duration (some every5MinBangkok)) ↔
      FailsPrecondition (some every5MinBangkok)) ∧
    (Panics (CronRange.TimeZone (some every5MinBangkok)) ↔
      FailsPrecondition (some every5MinBangkok)) ∧
    (Panics (CronRange.CronExpression (some every5MinBangkok)) ↔
      FailsPrecondition (some every5MinBangkok))) ∧
    (Panics (CronRange.IsWithin (some zeroValue) ⟨0, Location.Local⟩) ↔
      FailsPrecondition (some zeroValue)) ∧
    (Panics (CronRange.IsWithin none ⟨0, Location.Local⟩) ↔ FailsPrecondition none) :=
  ⟨panics_iff_failed_precondition (some every5MinBangkok) ⟨0, Location.Local⟩ 0
      (by simp [HandlesTogether, every5MinBangkok]),
    (panics_iff_failed_precondition (some zeroValue) ⟨0, Location.Local⟩ 1
      (by simp [HandlesTogether, zeroValue])).2.1,
    (panics_iff_failed_precondition none ⟨0, Location.Local⟩ 1 trivial).2.1⟩

theorem everyMinutes_after (n : Nat) (hn : 0 < n) (a : Time) :
    a.ns < ((everyMinutes n).Next a).ns := by
  have hP : (0 : Int) < (n : Int) * Minute := by
    have : (0 : Int) < (n : Int) := by exact_mod_cast hn
    unfold Minute Second
    positivity
  exact Int.lt_ediv_add_one_mul_self a.ns hP

/-- C13: for a complete CronRange and `count ≥ 1`, with `ref` the time `t` in the zone the
evaluator works in, `NextOccurrences(t, count)` returns at most `count` windows, and
exactly `count` windows when none of the first `count` answers of the evaluator is before
its reference instant. -/
theorem NextOccurrences_length (cr : CronRange) (expr : Expression) (loc : Location)
    (t ref : Time) (count : Int) (hd : 0 < cr.duration) (he : cr.expr = some expr)
    (hl : cr.location = some loc) (hc : 1 ≤ count)
    (hr : CronRange.toLocation cr.location t = .ok ref) :
    ∃ occurs : List TimeRange,
      CronRange.NextOccurrences (some cr) t count = .ok occurs ∧
      (occurs.length : Int) ≤ count ∧
      ((∀ i : Nat, (i : Int) < count →
          ¬ (expr.Next (expr.Next^[i] ref)).ns < (expr.Next^[i] ref).ns) →
        (occurs.length : Int) = count) := by
  rw [hl] at hr
  refine ⟨_, NextOccurrences_complete cr expr loc t ref count hd he hl hc hr, ?_, ?_⟩
  · have := nextLoop_length_le expr cr.duration t.loc count.toNat ref
    omega
  · intro h
    have := nextLoop_length_eq expr cr.duration t.loc count.toNat ref (fun i hi => by
      have := h i (by omega)
      simpa [Time.Before] using this)
    omega

/-- C13 at `*/5 * * * *` in `Asia/Bangkok`: three windows are asked for after the epoch and
three are returned. -/
theorem NextOccurrences_length_witness :
    ∃ occurs : List TimeRange,
      CronRange.NextOccurrences (some every5MinBangkok) ⟨0, Location.Local⟩ 3 = .ok occurs ∧
      (occurs.length : Int) ≤ 3 ∧ (occurs.length : Int) = 3 := by
  obtain ⟨occurs, h1, h2, h3⟩ := NextOccurrences_length every5MinBangkok (everyMinutes 5)
    (Location.Zone "Asia/Bangkok") ⟨0, Location.Local⟩ ⟨0, Location.Zone "Asia/Bangkok"⟩ 3
    (by decide) rfl rfl (by decide) rfl
  exact ⟨occurs, h1, h2, h3 (fun i _ => not_lt.mpr (le_of_lt (everyMinutes_after 5 (by decide) _)))⟩

theorem nextLoop_exact (expr : Expression) (d : Int) (orig : Location) (n : Nat) :
    ∀ curr : Time, ∃ m : Nat, m ≤ n ∧
      CronRange.nextLoop expr d orig n curr []
        = (List.range m).map (fun i =>
            ({ Start := (expr.Next (expr.Next^[i] curr)).In orig,
               End := ((expr.Next (expr.Next^[i] curr)).Add d).In orig } : TimeRange)) ∧
      (∀ i : Nat, i < m →
        (expr.Next (expr.Next^[i] curr)).Before (expr.Next^[i] curr) = false) ∧
      (m < n → (expr.Next (expr.Next^[m] curr)).Before (expr.Next^[m] curr) = true) := by
  induction n with
  | zero =>
    intro curr
    exact ⟨0, le_refl 0, by simp [CronRange.nextLoop], fun i hi => by omega, fun h => by omega⟩
  | succ n ih =>
    intro curr
    cases hb : (expr.Next curr).Before curr with
    | true =>
      refine ⟨0, by omega, ?_, fun i hi => by omega, fun _ => ?_⟩
      · rw [nextLoop_stop expr d orig n curr hb]
        rfl
      · simpa using hb
    | false =>
      obtain ⟨m, hm, hlist, hall, hstop⟩ := ih (expr.Next curr)
      refine ⟨m + 1, by omega, ?_, ?_, ?_⟩
      · rw [nextLoop_cons expr d orig n curr hb, hlist, List.range_succ_eq_map]
        simp only [List.map_cons, List.map_map, Function.iterate_zero, id_eq]
        congr 1
      · intro i hi
        cases i with
        | zero => simpa using hb
        | succ i =>
          have := hall i (by omega)
          simpa [Function.iterate_succ] using this
      · intro h
        have := hstop (by omega)
        simpa [Function.iterate_succ] using this

/-- C1: for a complete CronRange and `count ≥ 1`, with `ref` the time `t` in the zone the
evaluator works in (the same instant as `t`), `NextOccurrences(t, count)` returns exactly
the list of the first `n` successive answers of the evaluator, in order: window `i` starts
at the evaluator's answer to its `i`-th reference instant and ends `duration` later, the
first reference instant being `ref` and each later one the previous answer, which is the
instant of the previous window's start.  Here `n ≤ count`, none of the first `n` answers is
before its reference instant, and when `n < count` the next answer is before its reference
instant.  So every window has `End = Start + duration` and `Start ≤ End`. -/
theorem NextOccurrences_lists_successive_matches (cr : CronRange) (expr : Expression)
    (loc : Location) (t ref : Time) (count : Int) (hd : 0 < cr.duration)
    (he : cr.expr = some expr) (hl : cr.location = some loc) (hc : 1 ≤ count)
    (hr : CronRange.toLocation cr.location t = .ok ref) :
    ref.ns = t.ns ∧
    ∃ (occurs : List TimeRange) (n : Nat),
      CronRange.NextOccurrences (some cr) t count = .ok occurs ∧
      (n : Int) ≤ count ∧
      occurs = (List.range n).map (fun i =>
        ({ Start := (expr.Next (expr.Next^[i] ref)).In t.Location,
           End := ((expr.Next (expr.Next^[i] ref)).Add cr.duration).In t.Location }
          : TimeRange)) ∧
      (∀ i : Nat, i < n →
        (expr.Next (expr.Next^[i] ref)).Before (expr.Next^[i] ref) = false) ∧
      ((n : Int) < count →
        (expr.Next (expr.Next^[n] ref)).Before (expr.Next^[n] ref) = true) ∧
      (∀ (i : Nat) (w : TimeRange), occurs[i]? = some w →
        w.Start = (expr.Next (expr.Next^[i] ref)).In t.Location ∧
        w.End = w.Start.Add cr.duration ∧
        w.Start.ns ≤ w.End.ns ∧
        (∀ (j : Nat) (p : TimeRange), i = j + 1 → occurs[j]? = some p →
          p.Start = (expr.Next^[i] ref).In t.Location ∧
          (expr.Next^[i] ref).ns = p.Start.ns)) := by
  rw [hl] at hr
  obtain ⟨hns, -⟩ := toLocation_ok loc t ref hr
  obtain ⟨n, hn, hlist, hall, hstop⟩ := nextLoop_exact expr cr.duration t.loc count.toNat ref
  have hN := NextOccurrences_complete cr expr loc t ref count hd he hl hc hr
  refine ⟨hns, _, n, hN, by omega, hlist, hall, fun h => hstop (by omega), ?_⟩
  intro i w hw
  obtain ⟨h1, h2, -⟩ := nextLoop_get expr cr.duration t.loc count.toNat ref i w hw
  refine ⟨h1, ?_, ?_, ?_⟩
  · rw [h2, h1]; rfl
  · rw [h2, h1]; simp only [Time.In, Time.Add]; omega
  · intro j p hij hp
    obtain ⟨h3, -, -⟩ := nextLoop_get expr cr.duration t.loc count.toNat ref j p hp
    subst hij
    rw [h3, Function.iterate_succ_apply']
    exact ⟨rfl, rfl⟩

/-- C1 at `*/5 * * * *` in `Asia/Bangkok` with a one-minute window: three occurrences are
asked for after the epoch, and the list holds the windows that start at 00:05, 00:10 and
00:15 and end one minute later. -/
theorem NextOccurrences_lists_successive_matches_witness :
    ((⟨0, Location.Zone "Asia/Bangkok"⟩ : Time).ns = (⟨0, Location.Local⟩ : Time).ns ∧
      ∃ (occurs : List TimeRange) (n : Nat),
        CronRange.NextOccurrences (some every5MinBangkok) ⟨0, Location.Local⟩ 3 = .ok occurs ∧
        (n : Int) ≤ 3 ∧
        occurs = (List.range n).map (fun i =>
          ({ Start := ((everyMinutes 5).Next ((everyMinutes 5).Next^[i]
                ⟨0, Location.Zone "Asia/Bangkok"⟩)).In (⟨0, Location.Local⟩ : Time).Location,
             End := (((everyMinutes 5).Next ((everyMinutes 5).Next^[i]
                ⟨0, Location.Zone "Asia/Bangkok"⟩)).Add every5MinBangkok.duration).In
                  (⟨0, Location.Local⟩ : Time).Location } : TimeRange)) ∧
        (∀ i : Nat, i < n →
          ((everyMinutes 5).Next ((everyMinutes 5).Next^[i]
              ⟨0, Location.Zone "Asia/Bangkok"⟩)).Before
            ((everyMinutes 5).Next^[i] ⟨0, Location.Zone "Asia/Bangkok"⟩) = false) ∧
        ((n : Int) < 3 →
          ((everyMinutes 5).Next ((everyMinutes 5).Next^[n]
              ⟨0, Location.Zone "Asia/Bangkok"⟩)).Before
            ((everyMinutes 5).Next^[n] ⟨0, Location.Zone "Asia/Bangkok"⟩) = true) ∧
        (∀ (i : Nat) (w : TimeRange), occurs[i]? = some w →
          w.Start = ((everyMinutes 5).Next ((everyMinutes 5).Next^[i]
              ⟨0, Location.Zone "Asia/Bangkok"⟩)).In (⟨0, Location.Local⟩ : Time).Location ∧
          w.End = w.Start.Add every5MinBangkok.duration ∧
          w.Start.ns ≤ w.End.ns ∧
          (∀ (j : Nat) (p : TimeRange), i = j + 1 → occurs[j]? = some p →
            p.Start = ((everyMinutes 5).Next^[i] ⟨0, Location.Zone "Asia/Bangkok"⟩).In
                (⟨0, Location.Local⟩ : Time).Location ∧
            ((everyMinutes 5).Next^[i] ⟨0, Location.Zone "Asia/Bangkok"⟩).ns = p.Start.ns))) ∧
    CronRange.NextOccurrences (some every5MinBangkok) ⟨0, Location.Local⟩ 3
      = .ok [⟨⟨300000000000, Location.Local⟩, ⟨360000000000, Location.Local⟩⟩,
             ⟨⟨600000000000, Location.Local⟩, ⟨660000000000, Location.Local⟩⟩,
             ⟨⟨900000000000, Location.Local⟩, ⟨960000000000, Location.Local⟩⟩] :=
  ⟨NextOccurrences_lists_successive_matches every5MinBangkok (everyMinutes 5)
      (Location.Zone "Asia/Bangkok") ⟨0, Location.Local⟩ ⟨0, Location.Zone "Asia/Bangkok"⟩ 3
      (by decide) rfl rfl (by decide) rfl,
    rfl⟩

/-! ## The search instant of `IsWithin` -/

/-- C14, evaluated where it fails: for a one-minute window the instant handed to the
evaluator is 60.999999999 s before `t`, not one minute and one nanosecond before it.  The
difference shows in the result: at 00:01:00.5 the evaluator of `* * * * *` asked at
`t - duration - 1 ns` answers 00:01:00, whose window holds `t`, while `IsWithin`, asking
at `t - duration - (1 s - 1 ns)`, gets 00:00:00 and returns false. -/
theorem searchStart_is_not_one_tick_before :
    (CronRange.searchStart (1 * Minute) ⟨0, Location.Local⟩).ns = -60999999999 ∧
    (CronRange.searchStart (1 * Minute) ⟨0, Location.Local⟩).ns
      ≠ (⟨0, Location.Local⟩ : Time).ns - 1 * Minute - 1 * Nanosecond ∧
    ((everyMinutes 1).Next
      ⟨60500000000 - 1 * Minute - 1 * Nanosecond, Location.Local⟩).ns = 60000000000 ∧
    CronRange.IsWithin (some (everyMinuteFor (1 * Minute))) ⟨60500000000, Location.Local⟩
      = .ok false ∧
    ¬ (∀ (d : Int) (t : Time), 0 < d → d < 9223372036854775808 →
        (CronRange.searchStart d t).ns = t.ns - d - 1 * Nanosecond) := by
  refine ⟨by decide, by decide, by decide, rfl, ?_⟩
  intro h
  exact absurd (h (1 * Minute) ⟨0, Location.Local⟩ (by decide) (by decide)) (by decide)

/-- C16: for a complete CronRange, with `ref` the time `t` in the zone the evaluator works
in, when the evaluator's answer for `searchStart` is not strictly after `searchStart`
(equal to it or earlier), `IsWithin(t)` returns false. -/
theorem IsWithin_false_when_not_found (cr : CronRange) (expr : Expression) (loc : Location)
    (t ref : Time) (hd : 0 < cr.duration) (h64 : cr.duration < 9223372036854775808)
    (he : cr.expr = some expr) (hl : cr.location = some loc)
    (hr : CronRange.toLocation cr.location t = .ok ref)
    (hle : (expr.Next (CronRange.searchStart cr.duration ref)).ns
      ≤ (CronRange.searchStart cr.duration ref).ns) :
    CronRange.IsWithin (some cr) t = .ok false := by
  rw [hl] at hr
  obtain ⟨hns, -⟩ := toLocation_ok loc t ref hr
  rw [IsWithin_complete cr expr loc t ref hd he hl hr]
  split
  · rfl
  · rename_i hnb
    have hnb1 : ¬ (expr.Next (CronRange.searchStart cr.duration ref)).ns
        < (CronRange.searchStart cr.duration ref).ns := by
      simpa [Time.Before] using hnb
    have heq : (expr.Next (CronRange.searchStart cr.duration ref)).ns
        = (CronRange.searchStart cr.duration ref).ns := by omega
    have hoff : (CronRange.searchStart cr.duration ref).ns = ref.ns
        + toInt64 (-(toInt64 (toInt64 (cr.duration + 1 * Second) - 1 * Nanosecond))) := rfl
    have hcases : toInt64 (-(toInt64 (toInt64 (cr.duration + 1 * Second) - 1 * Nanosecond)))
          = -(cr.duration + 999999999) ∨
        0 < toInt64 (-(toInt64 (toInt64 (cr.duration + 1 * Second) - 1 * Nanosecond))) ∨
        (toInt64 (-(toInt64 (toInt64 (cr.duration + 1 * Second) - 1 * Nanosecond)))
            = -9223372036854775808 ∧ cr.duration = 9223372035854775809) := by
      unfold toInt64 Second Nanosecond
      norm_num
      omega
    congr 1
    simp only [Time.Before, Time.After, Time.Equal, Time.Add, heq, hoff, Bool.or_eq_false_iff,
      Bool.and_eq_false_iff, decide_eq_false_iff_not]
    omega

/-- C16 on an evaluator that never finds a match, one minute after the epoch. -/
theorem IsWithin_false_when_not_found_witness :
    CronRange.IsWithin (some { every5MinBangkok with expr := some neverMatches })
      ⟨60000000000, Location.Local⟩ = .ok false :=
  IsWithin_false_when_not_found { every5MinBangkok with expr := some neverMatches }
    neverMatches (Location.Zone "Asia/Bangkok") ⟨60000000000, Location.Local⟩
    ⟨60000000000, Location.Zone "Asia/Bangkok"⟩ (by decide) (by decide) rfl rfl rfl
    (by decide)

/-! ## Display zones -/

theorem nextLoop_instants (expr : Expression) (d : Int) (o1 o2 : Location) (n : Nat) :
    ∀ curr : Time,
      (CronRange.nextLoop expr d o1 n curr []).map (fun w => (w.Start.ns, w.End.ns))
        = (CronRange.nextLoop expr d o2 n curr []).map (fun w => (w.Start.ns, w.End.ns)) := by
  induction n with
  | zero => intro curr; simp [CronRange.nextLoop]
  | succ n ih =>
    intro curr
    cases hb : (expr.Next curr).Before curr with
    | true => rw [nextLoop_stop expr d o1 n curr hb, nextLoop_stop expr d o2 n curr hb]
    | false =>
      rw [nextLoop_cons expr d o1 n curr hb, nextLoop_cons expr d o2 n curr hb]
      simp only [List.map_cons, ih (expr.Next curr)]
      rfl

/-- C17, refuted as stated: the CronRange `0 8 * * *` in the process-local zone, with an
evaluator that reads the cron fields in the display zone of its argument, and the instant
08:00 UTC carried once in UTC and once in `Asia/Bangkok`: `IsWithin` is true for the first
and false for the second, and the next occurrence starts at different instants. -/
theorem local_range_depends_on_display_zone :
    (∀ t : Time, t.ns < (dailyAtEight.Next t).ns ∧ (dailyAtEight.Next t).loc = t.loc ∧
      ((dailyAtEight.Next t).ns + sampleOffset t.loc) % (24 * 60 * Minute) = 8 * 60 * Minute) ∧
    (⟨28800000000000, Location.Zone "Etc/UTC"⟩ : Time).ns
      = (⟨28800000000000, Location.Zone "Asia/Bangkok"⟩ : Time).ns ∧
    CronRange.IsWithin (some dailyAtEightLocal) ⟨28800000000000, Location.Zone "Etc/UTC"⟩
      = .ok true ∧
    CronRange.IsWithin (some dailyAtEightLocal) ⟨28800000000000, Location.Zone "Asia/Bangkok"⟩
      = .ok false ∧
    CronRange.NextOccurrences (some dailyAtEightLocal)
        ⟨28800000000000, Location.Zone "Etc/UTC"⟩ 1
      = .ok [⟨⟨115200000000000, Location.Zone "Etc/UTC"⟩,
              ⟨115260000000000, Location.Zone "Etc/UTC"⟩⟩] ∧
    CronRange.NextOccurrences (some dailyAtEightLocal)
        ⟨28800000000000, Location.Zone "Asia/Bangkok"⟩ 1
      = .ok [⟨⟨90000000000000, Location.Zone "Asia/Bangkok"⟩,
              ⟨90060000000000, Location.Zone "Asia/Bangkok"⟩⟩] := by
  refine ⟨?_, rfl, rfl, rfl, rfl, rfl⟩
  intro t
  refine ⟨?_, rfl, ?_⟩
  · show t.ns < ((t.ns + sampleOffset t.loc - 8 * 60 * Minute) / (24 * 60 * Minute) + 1)
        * (24 * 60 * Minute) + 8 * 60 * Minute - sampleOffset t.loc
    unfold Minute Second
    omega
  · show (((t.ns + sampleOffset t.loc - 8 * 60 * Minute) / (24 * 60 * Minute) + 1)
        * (24 * 60 * Minute) + 8 * 60 * Minute - sampleOffset t.loc + sampleOffset t.loc)
          % (24 * 60 * Minute) = 8 * 60 * Minute
    unfold Minute Second
    omega

/-- C17, amended: for a complete CronRange whose zone is not the process-local zone, or
for two times carrying the same display zone, and for any evaluator: two times that denote
the same instant get the same answer from `IsWithin`, and `NextOccurrences` returns windows
with the same start and end instants for both. -/
theorem same_instant_same_answer (cr : CronRange) (expr : Expression) (loc : Location)
    (t1 t2 : Time) (count : Int) (hd : 0 < cr.duration) (he : cr.expr = some expr)
    (hl : cr.location = some loc) (hc : 1 ≤ count)
    (hzone : loc ≠ Location.Local ∨ t1.loc = t2.loc) (hsame : t1.ns = t2.ns) :
    CronRange.IsWithin (some cr) t1 = CronRange.IsWithin (some cr) t2 ∧
    ∃ o1 o2 : List TimeRange,
      CronRange.NextOccurrences (some cr) t1 count = .ok o1 ∧
      CronRange.NextOccurrences (some cr) t2 count = .ok o2 ∧
      o1.map (fun w => (w.Start.ns, w.End.ns)) = o2.map (fun w => (w.Start.ns, w.End.ns)) := by
  obtain ⟨r1, hr1, hn1, hl1⟩ := toLocation_some loc t1
  obtain ⟨r2, hr2, hn2, hl2⟩ := toLocation_some loc t2
  have hr : r1 = r2 := by
    have hloc : r1.loc = r2.loc := by
      rw [hl1, hl2]
      rcases hzone with h | h
      · simp [h]
      · rw [h]
    cases r1; cases r2
    simp only [Time.mk.injEq]
    simp only at hn1 hn2 hloc
    exact ⟨by omega, hloc⟩
  subst hr
  refine ⟨?_, _, _, NextOccurrences_complete cr expr loc t1 r1 count hd he hl hc hr1,
    NextOccurrences_complete cr expr loc t2 r1 count hd he hl hc hr2,
    nextLoop_instants expr cr.duration t1.loc t2.loc count.toNat r1⟩
  rw [IsWithin_complete cr expr loc t1 r1 hd he hl hr1,
    IsWithin_complete cr expr loc t2 r1 hd he hl hr2]

/-- C17 amended, at `*/5 * * * *` in `Asia/Bangkok`: the instant 00:06:00 UTC carried in
the process-local zone and in UTC. -/
theorem same_instant_same_answer_witness :
    CronRange.IsWithin (some every5MinBangkok) ⟨360000000000, Location.Local⟩
      = CronRange.IsWithin (some every5MinBangkok) ⟨360000000000, Location.Zone "Etc/UTC"⟩ ∧
    ∃ o1 o2 : List TimeRange,
      CronRange.NextOccurrences (some every5MinBangkok) ⟨360000000000, Location.Local⟩ 2
        = .ok o1 ∧
      CronRange.NextOccurrences (some every5MinBangkok)
        ⟨360000000000, Location.Zone "Etc/UTC"⟩ 2 = .ok o2 ∧
      o1.map (fun w => (w.Start.ns, w.End.ns)) = o2.map (fun w => (w.Start.ns, w.End.ns)) :=
  same_instant_same_answer every5MinBangkok (everyMinutes 5) (Location.Zone "Asia/Bangkok")
    ⟨360000000000, Location.Local⟩ ⟨360000000000, Location.Zone "Etc/UTC"⟩ 2 (by decide)
    rfl rfl (by decide) (Or.inl (by decide)) rfl

/-! ## Windows spaced more than a second apart -/

theorem onlyAtEpoch_least : LeastMatchAfter (fun _ m => m = 0) onlyAtEpoch := by
  intro a
  by_cases h : a.ns < 0
  · left
    have hN : onlyAtEpoch.Next a = ⟨0, a.loc⟩ := by simp [onlyAtEpoch, h]
    rw [hN]
    exact ⟨rfl, rfl, h, fun m hm _ => le_of_eq hm.symm⟩
  · right
    have hN : onlyAtEpoch.Next a = ⟨zeroTimeNs, Location.Zone "UTC"⟩ := by
      simp [onlyAtEpoch, h]
    rw [hN]
    refine ⟨fun m hm => by omega, ?_⟩
    have : zeroTimeNs < 0 := by decide
    show zeroTimeNs < a.ns
    omega

theorem IsWithin_iff_in_window (M : Location → Int → Prop) (cr : CronRange)
    (expr : Expression) (loc : Location) (t ref : Time) (hd : 0 < cr.duration)
    (he : cr.expr = some expr) (hl : cr.location = some loc)
    (hfit : cr.duration + 1 * Second - 1 * Nanosecond ≤ 9223372036854775807)
    (hE : LeastMatchAfter M expr)
    (hsp : ∀ (l : Location) (m n : Int), M l m → M l n → m < n →
      cr.duration + 1 * Second ≤ n - m)
    (hr : CronRange.toLocation (some loc) t = .ok ref) :
    (CronRange.IsWithin (some cr) t = .ok true ∨ CronRange.IsWithin (some cr) t = .ok false) ∧
    (CronRange.IsWithin (some cr) t = .ok true ↔
      ∃ s : Int, M ref.loc s ∧ s ≤ t.ns ∧ t.ns ≤ s + cr.duration) := by
  obtain ⟨hns, -⟩ := toLocation_ok loc t ref hr
  unfold Second Nanosecond at hfit
  have hss : (CronRange.searchStart cr.duration ref).ns
      = ref.ns - (cr.duration + 999999999) := searchStart_ns _ _ hd (by omega)
  have hsl : (CronRange.searchStart cr.duration ref).loc = ref.loc := rfl
  rw [IsWithin_complete cr expr loc t ref hd he hl hr]
  rcases hE (CronRange.searchStart cr.duration ref) with ⟨-, h2, h3, h4⟩ | ⟨h5, h6⟩
  · rw [hsl] at h2 h4
    have hnb : (expr.Next (CronRange.searchStart cr.duration ref)).Before
        (CronRange.searchStart cr.duration ref) = false := by
      simp only [Time.Before, decide_eq_false_iff_not]
      omega
    rw [hnb]
    simp only [Bool.false_eq_true, if_false, Except.ok.injEq, Time.Before, Time.After,
      Time.Equal, Time.Add, Bool.or_eq_true, Bool.and_eq_true, decide_eq_true_eq]
    constructor
    · by_cases hin : (expr.Next (CronRange.searchStart cr.duration ref)).ns ≤ ref.ns ∧
          ref.ns ≤ (expr.Next (CronRange.searchStart cr.duration ref)).ns + cr.duration
      · left; omega
      · right
        simp only [Bool.or_eq_false_iff, Bool.and_eq_false_iff, decide_eq_false_iff_not]
        omega
    · constructor
      · intro h
        exact ⟨_, h2, by omega, by omega⟩
      · rintro ⟨s, hs, hs1, hs2⟩
        have hle := h4 s hs (by omega)
        rcases lt_or_eq_of_le hle with hlt | heq
        · have := hsp ref.loc _ s h2 hs hlt
          unfold Second at this
          omega
        · omega
  · rw [hsl] at h5
    have hb : (expr.Next (CronRange.searchStart cr.duration ref)).Before
        (CronRange.searchStart cr.duration ref) = true := by
      simp only [Time.Before, decide_eq_true_eq]
      exact h6
    rw [hb]
    simp only [if_true, Except.ok.injEq, Bool.false_eq_true, false_iff, not_exists, not_and,
      not_le, or_true, true_and]
    intro s hs hs1
    have := h5 s hs
    omega

/-- C18, refuted as stated: a schedule whose only match is the epoch (so that matches are
pairwise as far apart as one likes) with the largest `time.Duration` as its window; the
epoch lies in the window that starts at the epoch and `IsWithin` returns false, the
search offset `duration + 1 s - 1 ns` having wrapped. -/
theorem IsWithin_misses_window_at_max_duration :
    LeastMatchAfter (fun _ m => m = 0) onlyAtEpoch ∧
    (∀ m n : Int, m = 0 → n = 0 → m < n → onceForMaxDuration.duration + 1 * Second ≤ n - m) ∧
    ((0 : Int) ≤ (⟨0, Location.Local⟩ : Time).ns ∧
      (⟨0, Location.Local⟩ : Time).ns ≤ 0 + onceForMaxDuration.duration) ∧
    (CronRange.searchStart onceForMaxDuration.duration ⟨0, Location.Local⟩).ns
      = 9223372035854775810 ∧
    CronRange.IsWithin (some onceForMaxDuration) ⟨0, Location.Local⟩ = .ok false := by
  refine ⟨onlyAtEpoch_least, ?_, ⟨by decide, by decide⟩, by decide, rfl⟩
  intro m n hm hn h
  omega

/-- C18, amended: for a complete CronRange whose duration plus one second minus one
nanosecond fits a `time.Duration`, whose evaluator answers with the least match strictly
after its argument and whose matches are pairwise at least `duration + 1 s` apart, and for
every time `t`: `IsWithin(t)` returns a boolean, and it is true exactly when some match
`s` has `s ≤ t ≤ s + duration`; it is false one nanosecond before the start of a window
and one nanosecond after its end. -/
theorem IsWithin_iff_in_some_window (M : Location → Int → Prop) (cr : CronRange)
    (expr : Expression) (loc : Location) (t : Time) (hd : 0 < cr.duration)
    (he : cr.expr = some expr) (hl : cr.location = some loc)
    (hfit : cr.duration + 1 * Second - 1 * Nanosecond ≤ 9223372036854775807)
    (hE : LeastMatchAfter M expr)
    (hsp : ∀ (l : Location) (m n : Int), M l m → M l n → m < n →
      cr.duration + 1 * Second ≤ n - m) :
    ∃ ref : Time, CronRange.toLocation cr.location t = .ok ref ∧ ref.ns = t.ns ∧
      (CronRange.IsWithin (some cr) t = .ok true ∨
        CronRange.IsWithin (some cr) t = .ok false) ∧
      (CronRange.IsWithin (some cr) t = .ok true ↔
        ∃ s : Int, M ref.loc s ∧ s ≤ t.ns ∧ t.ns ≤ s + cr.duration) ∧
      (∀ s : Int, M ref.loc s →
        CronRange.IsWithin (some cr) ⟨s - 1 * Nanosecond, t.loc⟩ = .ok false ∧
        CronRange.IsWithin (some cr) ⟨s + cr.duration + 1 * Nanosecond, t.loc⟩ = .ok false) := by
  obtain ⟨ref, hr, hns, hloc⟩ := toLocation_some loc t
  obtain ⟨h1, h2⟩ := IsWithin_iff_in_window M cr expr loc t ref hd he hl hfit hE hsp hr
  refine ⟨ref, by rw [hl]; exact hr, hns, h1, h2, ?_⟩
  intro s hs
  have outside : ∀ x : Int, (x = s - 1 ∨ x = s + cr.duration + 1) →
      CronRange.IsWithin (some cr) ⟨x, t.loc⟩ = .ok false := by
    intro x hx
    obtain ⟨r, hr1, hn1, hl1⟩ := toLocation_some loc ⟨x, t.loc⟩
    obtain ⟨h3, h4⟩ := IsWithin_iff_in_window M cr expr loc ⟨x, t.loc⟩ r hd he hl hfit hE
      hsp hr1
    have hrl : r.loc = ref.loc := by rw [hl1, hloc]
    rcases h3 with h3 | h3
    · exfalso
      obtain ⟨u, hu, hu1, hu2⟩ := h4.mp h3
      rw [hrl] at hu
      simp only at hu1 hu2
      rcases lt_trichotomy u s with hlt | heq | hgt
      · have := hsp ref.loc u s hu hs hlt
        unfold Second at this
        omega
      · omega
      · have := hsp ref.loc s u hs hu hgt
        unfold Second at this
        omega
    · exact h3
  unfold Nanosecond
  exact ⟨outside _ (Or.inl (by omega)), outside _ (Or.inr (by omega))⟩

/-- C18 amended, at `*/5 * * * *` in `Asia/Bangkok` with a one-minute window, at
00:06:00. -/
theorem IsWithin_iff_in_some_window_witness :
    ∃ ref : Time,
      CronRange.toLocation every5MinBangkok.location ⟨360000000000, Location.Local⟩
        = .ok ref ∧
      ref.ns = (⟨360000000000, Location.Local⟩ : Time).ns ∧
      (CronRange.IsWithin (some every5MinBangkok) ⟨360000000000, Location.Local⟩ = .ok true ∨
        CronRange.IsWithin (some every5MinBangkok) ⟨360000000000, Location.Local⟩
          = .ok false) ∧
      (CronRange.IsWithin (some every5MinBangkok) ⟨360000000000, Location.Local⟩ = .ok true ↔
        ∃ s : Int, ((5 : Nat) : Int) * Minute ∣ s ∧
          s ≤ (⟨360000000000, Location.Local⟩ : Time).ns ∧
          (⟨360000000000, Location.Local⟩ : Time).ns ≤ s + every5MinBangkok.duration) ∧
      (∀ s : Int, ((5 : Nat) : Int) * Minute ∣ s →
        CronRange.IsWithin (some every5MinBangkok)
          ⟨s - 1 * Nanosecond, (⟨360000000000, Location.Local⟩ : Time).loc⟩ = .ok false ∧
        CronRange.IsWithin (some every5MinBangkok)
          ⟨s + every5MinBangkok.duration + 1 * Nanosecond,
            (⟨360000000000, Location.Local⟩ : Time).loc⟩ = .ok false) :=
  IsWithin_iff_in_some_window (fun _ m => ((5 : Nat) : Int) * Minute ∣ m) every5MinBangkok
    (everyMinutes 5) (Location.Zone "Asia/Bangkok") ⟨360000000000, Location.Local⟩
    (by decide) rfl rfl (by decide) (everyMinutes_least 5 (by decide))
    (by
      rintro l m n ⟨a, rfl⟩ ⟨b, rfl⟩ h
      simp only [every5MinBangkok, Minute, Second] at h ⊢
      omega)

/-! ## Minutes to duration -/

theorem minutes_no_wrap (n : Nat) (h2 : n ≤ 153722867) :
    toInt64 (toInt64 (n : Int) * Minute) = (n : Int) * Minute := by
  unfold toInt64 Minute Second
  norm_num
  omega

/-- C19, refuted as stated: `New` with 307445735 minutes succeeds with a duration of
26.290448384 s, the product having wrapped to a different positive value; with 153722868
minutes, and with 2^63 minutes, the product wraps to a value that is not positive and `New`
returns the invalid-duration error. -/
theorem New_wraps_large_minutes :
    (∃ c : CronRange, New sampleExternals "* * * * *" "" 307445735 = (some c, none) ∧
      CronRange.Duration (some c) = .ok 26290448384 ∧
      c.duration ≠ 307445735 * Minute) ∧
    New sampleExternals "* * * * *" "" 153722868 = (none, some Error.errZeroDuration) ∧
    New sampleExternals "* * * * *" "" 9223372036854775808
      = (none, some Error.errZeroDuration) := by
  refine ⟨⟨_, rfl, rfl, by decide⟩, rfl, rfl⟩

/-- C19, amended: for every `durationMin` from 1 to 153722867, the largest count of
minutes a `time.Duration` holds, every cron text the parser accepts and every zone name
that is local or that the zone database resolves, `New` succeeds and `Duration()` is
exactly `durationMin` minutes: the conversion does not wrap. -/
theorem New_exact_minutes (env : Externals) (cronExpr timeZone : String) (durationMin : Nat)
    (expression : Expression) (h1 : 1 ≤ durationMin) (h2 : durationMin ≤ 153722867)
    (hp : env.ParseStrict (TrimSpace cronExpr) = .ok expression)
    (hz : TrimSpace timeZone = "" ∨ ToLower (TrimSpace timeZone) = "local" ∨
      ∃ l, env.LoadLocation (TrimSpace timeZone) = .ok l) :
    toInt64 (toInt64 (durationMin : Int) * Minute) = (durationMin : Int) * Minute ∧
    ∃ c : CronRange, New env cronExpr timeZone durationMin = (some c, none) ∧
      CronRange.Duration (some c) = .ok ((durationMin : Int) * Minute) := by
  have hw := minutes_no_wrap durationMin h2
  have hpos : (0 : Int) < (durationMin : Int) * Minute := by
    have : (0 : Int) < (durationMin : Int) := by exact_mod_cast h1
    unfold Minute Second
    positivity
  have hnp : ¬ (durationMin : Int) * Minute ≤ 0 := by omega
  refine ⟨hw, ?_⟩
  unfold New
  rw [hw]
  by_cases hloc : TrimSpace timeZone = "" ∨ ToLower (TrimSpace timeZone) = "local"
  · rw [internalNew_local env cronExpr timeZone _ cronParser hpos hloc, hp]
    exact ⟨_, rfl, by simp [CronRange.Duration, CronRange.checkPrecondition, hnp]⟩
  · have hz1 : TrimSpace timeZone ≠ "" := fun h0 => hloc (Or.inl h0)
    have hz2 : ToLower (TrimSpace timeZone) ≠ "local" := fun h0 => hloc (Or.inr h0)
    rcases hz with h | h | ⟨l, hl⟩
    · exact absurd h hz1
    · exact absurd h hz2
    · rw [internalNew_zone env cronExpr timeZone _ cronParser hpos hz1 hz2, hl, hp]
      exact ⟨_, rfl, by simp [CronRange.Duration, CronRange.checkPrecondition, hnp]⟩

/-- C19 amended, at `New("* * * * *", "Etc/UTC", 153722867)`. -/
theorem New_exact_minutes_witness :
    toInt64 (toInt64 ((153722867 : Nat) : Int) * Minute) = ((153722867 : Nat) : Int) * Minute ∧
    ∃ c : CronRange, New sampleExternals "* * * * *" "Etc/UTC" 153722867 = (some c, none) ∧
      CronRange.Duration (some c) = .ok (((153722867 : Nat) : Int) * Minute) :=
  New_exact_minutes sampleExternals "* * * * *" "Etc/UTC" 153722867 (everyMinutes 1)
    (by decide) (by decide) rfl (Or.inr (Or.inr ⟨Location.Zone "Etc/UTC", rfl⟩))

/-! ## The canonical text form: decimal numbers -/

theorem digitChar_facts (d : Nat) (h : d < 10) :
    digitValue (digitChar d) = some d ∧ isSpace (digitChar d) = false ∧
    digitChar d ≠ Char.ofNat 59 ∧ digitChar d ≠ Char.ofNat 45 := by
  interval_cases d <;> decide

theorem decimalDigits_spec (fuel : Nat) :
    ∀ n : Nat, n < fuel →
      decimalDigits fuel n ≠ [] ∧
      (decimalDigits fuel n).foldl readDigit (some 0) = some n ∧
      ∀ c ∈ decimalDigits fuel n, ∃ d : Nat, d < 10 ∧ c = digitChar d := by
  induction fuel with
  | zero => intro n h; omega
  | succ fuel ih =>
    intro n h
    by_cases h10 : n < 10
    · simp only [decimalDigits, h10, if_true]
      refine ⟨by simp, ?_, ?_⟩
      · simp [readDigit, (digitChar_facts n h10).1]
      · intro c hc
        simp only [List.mem_singleton] at hc
        exact ⟨n, h10, hc⟩
    · simp only [decimalDigits, h10, if_false]
      obtain ⟨-, h2, h3⟩ := ih (n / 10) (by omega)
      refine ⟨by simp, ?_, ?_⟩
      · rw [List.foldl_append, h2]
        simp only [List.foldl_cons, List.foldl_nil, readDigit,
          (digitChar_facts (n % 10) (Nat.mod_lt n (by decide))).1]
        congr 1
        omega
      · intro c hc
        rcases List.mem_append.mp hc with hc | hc
        · exact h3 c hc
        · simp only [List.mem_singleton] at hc
          exact ⟨n % 10, Nat.mod_lt n (by decide), hc⟩

theorem decimal_spec (n : Nat) :
    decimal n ≠ [] ∧ parseInteger (decimal n) = some (n : Int) ∧
    ∀ c ∈ decimal n, ∃ d : Nat, d < 10 ∧ c = digitChar d := by
  obtain ⟨h1, h2, h3⟩ := decimalDigits_spec (n + 1) n (by omega)
  refine ⟨h1, ?_, h3⟩
  unfold decimal at *
  cases hl : decimalDigits (n + 1) n with
  | nil => exact absurd hl h1
  | cons c cs =>
    obtain ⟨d, hd, hc⟩ := h3 c (by rw [hl]; simp)
    have hne : c ≠ Char.ofNat 45 := by rw [hc]; exact (digitChar_facts d hd).2.2.2
    rw [hl] at h2
    simp only [parseInteger, hne, if_false, parseNat, List.isEmpty_cons, Bool.false_eq_true,
      h2]
    rfl

/-! ## The canonical text form: splitting and trimming -/

theorem splitOn_no_sep (sep : Char) :
    ∀ a : List Char, sep ∉ a → splitOn sep a = [a] := by
  intro a
  induction a with
  | nil => intro _; rfl
  | cons c a ih =>
    intro h
    have hc : c ≠ sep := fun e => h (by simp [e])
    have ha : sep ∉ a := fun e => h (List.mem_cons_of_mem _ e)
    simp [splitOn, hc, ih ha]

theorem splitOn_append (sep : Char) (b : List Char) :
    ∀ a : List Char, sep ∉ a → splitOn sep (a ++ sep :: b) = a :: splitOn sep b := by
  intro a
  induction a with
  | nil => intro _; simp [splitOn]
  | cons c a ih =>
    intro h
    have hc : c ≠ sep := fun e => h (by simp [e])
    have ha : sep ∉ a := fun e => h (List.mem_cons_of_mem _ e)
    simp [splitOn, hc, ih ha]

theorem TrimSpace_data (s : String) : (TrimSpace s).data = trimChars s.data := rfl

theorem trimChars_eq (l : List Char) :
    trimChars l = (l.dropWhile isSpace).rdropWhile isSpace := rfl

theorem trimChars_head (l : List Char) (c : Char) (r : List Char)
    (h : trimChars l = c :: r) : isSpace c = false := by
  rw [trimChars_eq] at h
  obtain ⟨t, ht⟩ := List.rdropWhile_prefix isSpace (l := l.dropWhile isSpace)
  rw [h] at ht
  have hid : (l.dropWhile isSpace).dropWhile isSpace = l.dropWhile isSpace :=
    List.dropWhile_idempotent _ _
  rw [← ht] at hid
  by_contra hc
  have hc1 : isSpace c = true := by simpa using hc
  simp only [List.cons_append, List.dropWhile_cons_of_pos hc1] at hid
  have hlen := (List.dropWhile_suffix isSpace (l := r ++ t)).length_le
  rw [hid] at hlen
  simp at hlen

theorem trimChars_last (l : List Char) (r : List Char) (c : Char)
    (h : trimChars l = r ++ [c]) : isSpace c = false := by
  rw [trimChars_eq] at h
  have hid : ((l.dropWhile isSpace).rdropWhile isSpace).rdropWhile isSpace
      = (l.dropWhile isSpace).rdropWhile isSpace := List.rdropWhile_idempotent _ _
  rw [h] at hid
  by_contra hc
  have hc1 : isSpace c = true := by simpa using hc
  rw [List.rdropWhile_concat_pos _ _ _ hc1] at hid
  have hlen := (List.rdropWhile_prefix isSpace (l := r)).length_le
  rw [hid] at hlen
  simp at hlen

theorem trimChars_of_edges (l : List Char)
    (hh : ∀ c r, l = c :: r → isSpace c = false)
    (hl : ∀ r c, l = r ++ [c] → isSpace c = false) : trimChars l = l := by
  rw [trimChars_eq]
  have h1 : l.dropWhile isSpace = l := by
    cases l with
    | nil => rfl
    | cons c r =>
      have := hh c r rfl
      simp [this]
  rw [h1]
  rcases List.eq_nil_or_concat l with h | ⟨r, c, h⟩
  · rw [h]; rfl
  · rw [List.concat_eq_append] at h
    have hc := hl r c h
    rw [h]
    exact List.rdropWhile_concat_neg _ _ _ (by simp [hc])

theorem trimChars_idem (l : List Char) : trimChars (trimChars l) = trimChars l :=
  trimChars_of_edges _ (fun c r h => trimChars_head l c r h)
    (fun r c h => trimChars_last l r c h)

theorem trimChars_space_cons (l : List Char) :
    trimChars (Char.ofNat 32 :: l) = trimChars l := by
  have h : isSpace (Char.ofNat 32) = true := by decide
  simp [trimChars, List.dropWhile_cons_of_pos h]

theorem trimChars_key_append (c1 c2 c3 : Char) (b : List Char) (h1 : isSpace c1 = false)
    (hb : b ≠ []) (hl : ∀ r c, b = r ++ [c] → isSpace c = false) :
    trimChars (c1 :: c2 :: c3 :: b) = c1 :: c2 :: c3 :: b := by
  apply trimChars_of_edges
  · intro c r h
    simp only [List.cons.injEq] at h
    rw [← h.1]
    exact h1
  · intro r c h
    rcases List.eq_nil_or_concat b with hb0 | ⟨r0, c0, hb0⟩
    · exact absurd hb0 hb
    · rw [List.concat_eq_append] at hb0
      have hc0 := hl r0 c0 hb0
      rw [hb0] at h
      have h2 : (c1 :: c2 :: c3 :: r0) ++ [c0] = r ++ [c] := by simpa using h
      have := List.append_inj_right' h2 rfl
      simp only [List.cons.injEq, and_true] at this
      rw [← this]
      exact hc0

/-! ## The canonical text form: round trip -/

theorem ParseString_of_pieces (env : Externals) (text : String) (p : List Char)
    (ps : List (List Char)) (z : Option (List Char)) (rest : List (List Char))
    (minutes : Nat) (hp : textPieces text = p :: ps)
    (hscan : scanKeys (p :: ps) none none = .ok (some minutes, z, rest)) :
    ParseString env text = liftError (New env ⟨joinWords rest⟩ ⟨z.getD []⟩ minutes) := by
  unfold ParseString
  rw [hp]
  simp only [hscan]
  rfl

theorem startsWith_keys (x : List Char) :
    startsWith "DR=".data ('D' :: 'R' :: '=' :: x) = true ∧
    startsWith "DR=".data ('T' :: 'Z' :: '=' :: x) = false ∧
    startsWith "TZ=".data ('T' :: 'Z' :: '=' :: x) = true :=
  ⟨rfl, rfl, rfl⟩

theorem scanKeys_cons (p : List Char) (ps : List (List Char)) (d : Option Nat)
    (z : Option (List Char)) :
    scanKeys (p :: ps) d z
      = if startsWith "DR=".data p then
          match d with
          | some _ => .error ParseError.repeatedKey
          | none =>
            match parseInteger (p.drop 3) with
            | none => .error ParseError.invalidDuration
            | some v =>
              if v ≤ 0 then .error ParseError.invalidDuration
              else scanKeys ps (some v.toNat) z
        else if startsWith "TZ=".data p then
          match z with
          | some _ => .error ParseError.repeatedKey
          | none =>
            scanKeys ps d (some (if ToLower ⟨p.drop 3⟩ = "local" then [] else p.drop 3))
        else .ok (d, z, p :: ps) := by
  rfl

theorem scanKeys_duration (k : Nat) (hk : 0 < k) (ps : List (List Char))
    (z : Option (List Char)) :
    scanKeys (('D' :: 'R' :: '=' :: decimal k) :: ps) none z = scanKeys ps (some k) z := by
  have h2 : ¬ ((k : Int) ≤ 0) := by omega
  rw [scanKeys_cons]
  simp only [(startsWith_keys (decimal k)).1, if_true, List.drop_succ_cons, List.drop_zero,
    (decimal_spec k).2.1, h2, if_false, Int.toNat_ofNat]

theorem scanKeys_zone (tz : List Char) (htz : ToLower ⟨tz⟩ ≠ "local") (ps : List (List Char))
    (d : Option Nat) :
    scanKeys (('T' :: 'Z' :: '=' :: tz) :: ps) d none = scanKeys ps d (some tz) := by
  rw [scanKeys_cons]
  simp only [(startsWith_keys tz).2.1, (startsWith_keys tz).2.2, if_true,
    List.drop_succ_cons, List.drop_zero, htz, if_false, Bool.false_eq_true]

theorem scanKeys_cron (ce : List Char) (hce : PlainText ce) (d : Option Nat)
    (z : Option (List Char)) :
    scanKeys [ce] d z = .ok (d, z, [ce]) := by
  rw [scanKeys_cons]
  simp only [hce.2.1, hce.2.2, Bool.false_eq_true, if_false]

theorem duration_piece (k : Nat) :
    Char.ofNat 59 ∉ ('D' :: 'R' :: '=' :: decimal k) ∧
    trimChars ('D' :: 'R' :: '=' :: decimal k) = 'D' :: 'R' :: '=' :: decimal k := by
  obtain ⟨h1, -, h3⟩ := decimal_spec k
  constructor
  · intro hm
    simp only [List.mem_cons] at hm
    rcases hm with h | h | h | h
    · exact absurd h (by decide)
    · exact absurd h (by decide)
    · exact absurd h (by decide)
    · obtain ⟨d, hd, hc⟩ := h3 _ h
      exact (digitChar_facts d hd).2.2.1 hc.symm
  · apply trimChars_key_append _ _ _ _ (by decide) h1
    intro r c h
    obtain ⟨d, hd, hc⟩ := h3 c (by rw [h]; simp)
    rw [hc]
    exact (digitChar_facts d hd).2.1

theorem pieces_nil_of_cron (ce : List Char) (htrim : trimChars ce = ce)
    (hsemi : Char.ofNat 59 ∉ ce) :
    ((splitOn (Char.ofNat 59) (' ' :: ce)).map trimChars).filter (fun p => !p.isEmpty)
      = if ce = [] then [] else [ce] := by
  have h1 : Char.ofNat 59 ∉ (' ' :: ce) := by
    intro hm
    rcases List.mem_cons.mp hm with h | h
    · exact absurd h (by decide)
    · exact hsemi h
  have h2 : trimChars (' ' :: ce) = ce := by
    have := trimChars_space_cons ce
    rw [htrim] at this
    exact this
  rw [splitOn_no_sep _ _ h1]
  simp only [List.map_cons, List.map_nil, h2]
  cases ce with
  | nil => simp
  | cons c r => simp

theorem canonical_pieces (k : Nat) (tz ce : List Char)
    (htz : trimChars tz = tz) (hce : trimChars ce = ce)
    (hz : Char.ofNat 59 ∉ tz) (hc : Char.ofNat 59 ∉ ce) :
    ((splitOn (Char.ofNat 59) (canonicalChars k ⟨tz⟩ ⟨ce⟩)).map trimChars).filter
        (fun p => !p.isEmpty)
      = ('D' :: 'R' :: '=' :: decimal k)
          :: ((if tz = [] then [] else [('T' :: 'Z' :: '=' :: tz)])
            ++ (if ce = [] then [] else [ce])) := by
  obtain ⟨hd1, hd2⟩ := duration_piece k
  by_cases h0 : tz = []
  · subst h0
    have e : canonicalChars k ⟨[]⟩ ⟨ce⟩
        = ('D' :: 'R' :: '=' :: decimal k) ++ Char.ofNat 59 :: (' ' :: ce) := by
      simp [canonicalChars]
    rw [e, splitOn_append _ _ _ hd1]
    simp only [List.map_cons, List.filter_cons, hd2, List.isEmpty_cons, Bool.not_false,
      if_true, List.nil_append]
    rw [pieces_nil_of_cron ce hce hc]
  · have hne : (⟨tz⟩ : String) ≠ "" := by
      intro h
      exact h0 (by simpa [String.ext_iff] using h)
    have e : canonicalChars k ⟨tz⟩ ⟨ce⟩
        = ('D' :: 'R' :: '=' :: decimal k) ++ Char.ofNat 59 ::
            ((' ' :: 'T' :: 'Z' :: '=' :: tz) ++ Char.ofNat 59 :: (' ' :: ce)) := by
      simp [canonicalChars, hne]
    have hz1 : Char.ofNat 59 ∉ (' ' :: 'T' :: 'Z' :: '=' :: tz) := by
      intro hm
      simp only [List.mem_cons] at hm
      rcases hm with h | h | h | h | h
      · exact absurd h (by decide)
      · exact absurd h (by decide)
      · exact absurd h (by decide)
      · exact absurd h (by decide)
      · exact hz h
    have ht : trimChars (' ' :: 'T' :: 'Z' :: '=' :: tz) = 'T' :: 'Z' :: '=' :: tz := by
      rw [trimChars_space_cons]
      apply trimChars_key_append _ _ _ _ (by decide) h0
      intro r c h
      rw [← htz] at h
      exact trimChars_last tz r c h
    rw [e, splitOn_append _ _ _ hd1, splitOn_append _ _ _ hz1]
    simp only [List.map_cons, List.filter_cons, hd2, ht, List.isEmpty_cons, Bool.not_false,
      if_true, h0, if_false, List.singleton_append]
    rw [pieces_nil_of_cron ce hce hc]

theorem ParseString_canonical (env : Externals) (k : Nat) (hk : 0 < k) (tz ce : List Char)
    (htz : trimChars tz = tz) (hce : trimChars ce = ce) (hz : Char.ofNat 59 ∉ tz)
    (hplain : PlainText ce) (hlocal : ToLower ⟨tz⟩ ≠ "local") :
    ParseString env ⟨canonicalChars k ⟨tz⟩ ⟨ce⟩⟩ = liftError (New env ⟨ce⟩ ⟨tz⟩ k) := by
  have hp : textPieces ⟨canonicalChars k ⟨tz⟩ ⟨ce⟩⟩
      = ('D' :: 'R' :: '=' :: decimal k)
          :: ((if tz = [] then [] else [('T' :: 'Z' :: '=' :: tz)])
            ++ (if ce = [] then [] else [ce])) :=
    canonical_pieces k tz ce htz hce hz hplain.1
  have hnil : ∀ (d : Option Nat) (z : Option (List Char)),
      scanKeys [] d z = .ok (d, z, []) := fun _ _ => rfl
  by_cases h0 : tz = []
  · by_cases h1 : ce = []
    · have hs : scanKeys (('D' :: 'R' :: '=' :: decimal k)
          :: ((if tz = [] then [] else [('T' :: 'Z' :: '=' :: tz)])
            ++ (if ce = [] then [] else [ce]))) none none = .ok (some k, none, []) := by
        simp only [h0, h1, if_true, List.append_nil]
        rw [scanKeys_duration k hk, hnil]
      rw [ParseString_of_pieces env _ _ _ _ _ _ hp hs, h0, h1]
      rfl
    · have hs : scanKeys (('D' :: 'R' :: '=' :: decimal k)
          :: ((if tz = [] then [] else [('T' :: 'Z' :: '=' :: tz)])
            ++ (if ce = [] then [] else [ce]))) none none = .ok (some k, none, [ce]) := by
        simp only [h0, h1, if_true, if_false, List.nil_append]
        rw [scanKeys_duration k hk, scanKeys_cron ce hplain]
      rw [ParseString_of_pieces env _ _ _ _ _ _ hp hs, h0]
      rfl
  · by_cases h1 : ce = []
    · have hs : scanKeys (('D' :: 'R' :: '=' :: decimal k)
          :: ((if tz = [] then [] else [('T' :: 'Z' :: '=' :: tz)])
            ++ (if ce = [] then [] else [ce]))) none none = .ok (some k, some tz, []) := by
        simp only [h0, h1, if_true, if_false, List.append_nil]
        rw [scanKeys_duration k hk, scanKeys_zone tz hlocal, hnil]
      rw [ParseString_of_pieces env _ _ _ _ _ _ hp hs, h1]
      rfl
    · have hs : scanKeys (('D' :: 'R' :: '=' :: decimal k)
          :: ((if tz = [] then [] else [('T' :: 'Z' :: '=' :: tz)])
            ++ (if ce = [] then [] else [ce]))) none none = .ok (some k, some tz, [ce]) := by
        simp only [h0, h1, if_false, List.singleton_append]
        rw [scanKeys_duration k hk, scanKeys_zone tz hlocal, scanKeys_cron ce hplain]
      rw [ParseString_of_pieces env _ _ _ _ _ _ hp hs]
      rfl

theorem TrimSpace_idem (s : String) : TrimSpace (TrimSpace s) = TrimSpace s := by
  apply String.ext
  rw [TrimSpace_data, TrimSpace_data, trimChars_idem]

theorem internalNew_again (env : Externals) (cronExpr tz : String) (td : Int) (cp : Parser)
    (c : CronRange) (h : internalNew env cronExpr tz td cp = (some c, none)) :
    internalNew env c.cronExpression c.timeZone td cronParser
      = (some { c with version := 0 }, none) := by
  obtain ⟨hd, expression, loc, hp, rfl, hzone⟩ := internalNew_ok_inv _ _ _ _ _ _ h
  have hp2 : env.ParseStrict (TrimSpace (TrimSpace cronExpr)) = .ok expression := by
    rw [TrimSpace_idem]; exact hp
  rcases hzone with ⟨hz, rfl⟩ | ⟨hz1, hz2, hload⟩
  · have htz : (if ToLower (TrimSpace tz) = "local" then "" else TrimSpace tz) = "" := by
      rcases hz with h0 | h0
      · rw [h0]; simp
      · simp [h0]
    simp only [htz]
    rw [internalNew_local env _ "" td cronParser hd (Or.inl (by decide)), hp2]
    simp only [TrimSpace_idem]
  · simp only [hz2, if_false]
    rw [internalNew_zone env _ _ td cronParser hd (by rw [TrimSpace_idem]; exact hz1)
      (by rw [TrimSpace_idem]; exact hz2), TrimSpace_idem, hload, hp2]
    simp only [TrimSpace_idem]

theorem constructed_zone_not_local (env : Externals) (cronExpr tz : String) (td : Int)
    (cp : Parser) (c : CronRange) (h : internalNew env cronExpr tz td cp = (some c, none)) :
    0 < td ∧ c.duration = td ∧ (∃ e, c.expr = some e) ∧ (∃ l, c.location = some l) ∧
    trimChars c.cronExpression.data = c.cronExpression.data ∧
    trimChars c.timeZone.data = c.timeZone.data ∧ ToLower c.timeZone ≠ "local" := by
  obtain ⟨hd, expression, loc, hp, rfl, hzone⟩ := internalNew_ok_inv _ _ _ _ _ _ h
  refine ⟨hd, rfl, ⟨_, rfl⟩, ⟨_, rfl⟩, ?_, ?_, ?_⟩
  · show trimChars (TrimSpace cronExpr).data = (TrimSpace cronExpr).data
    rw [TrimSpace_data, trimChars_idem]
  · by_cases hl : ToLower (TrimSpace tz) = "local"
    · simp only [hl, if_true]
      rfl
    · simp only [hl, if_false]
      rw [TrimSpace_data, trimChars_idem]
  · by_cases hl : ToLower (TrimSpace tz) = "local"
    · simp only [hl, if_true]
      decide
    · simp only [hl, if_false]
      exact hl

theorem String_complete (c : CronRange) (e : Expression) (l : Location)
    (hd : 0 < c.duration) (he : c.expr = some e) (hl : c.location = some l) :
    CronRange.String (some c)
      = ⟨canonicalChars (c.duration / Minute).toNat c.timeZone c.cronExpression⟩ := by
  have h1 : ¬ c.duration ≤ 0 := by omega
  simp [CronRange.String, h1, he, hl]

theorem liftError_ok (r : Option CronRange × Option Error) (c : CronRange)
    (h : liftError r = (some c, none)) : r = (some c, none) := by
  obtain ⟨cr, err⟩ := r
  cases err with
  | none =>
    simp only [liftError, Prod.mk.injEq, and_true] at h
    rw [h]
  | some e => simp [liftError] at h

theorem construct_some (env : Externals) (minutes : Nat) (z : Option (List Char))
    (rest : List (List Char)) :
    construct env (some minutes, z, rest)
      = liftError (New env ⟨joinWords rest⟩ ⟨z.getD []⟩ minutes) := rfl


/-! ## The canonical text form: what Parse reads -/

theorem splitOn_mem (sep : Char) :
    ∀ (l p : List Char), p ∈ splitOn sep l → sep ∉ p := by
  intro l
  induction l with
  | nil =>
    intro p hp
    simp only [splitOn, List.mem_singleton] at hp
    subst hp
    simp
  | cons c cs ih =>
    intro p hp
    by_cases hc : c = sep
    · simp only [splitOn, hc, if_true, List.mem_cons] at hp
      rcases hp with rfl | hp
      · simp
      · exact ih p hp
    · simp only [splitOn, hc, if_false] at hp
      cases hs : splitOn sep cs with
      | nil =>
        rw [hs] at hp
        simp only [List.mem_singleton] at hp
        subst hp
        intro hm
        simp only [List.mem_singleton] at hm
        exact hc hm.symm
      | cons q qs =>
        rw [hs] at hp
        simp only [List.mem_cons] at hp
        rcases hp with rfl | hp
        · have hq := ih q (by rw [hs]; simp)
          intro hm
          rcases List.mem_cons.mp hm with h | h
          · exact hc h.symm
          · exact hq h
        · exact ih p (by rw [hs]; simp [hp])

theorem trimChars_subset (l : List Char) (c : Char) (h : c ∈ trimChars l) : c ∈ l := by
  rw [trimChars_eq] at h
  exact (List.dropWhile_suffix isSpace).subset
    ((List.rdropWhile_prefix isSpace _).subset h)

theorem textPieces_ok (s : String) : PiecesOk (textPieces s) := by
  intro p hp
  simp only [textPieces, List.mem_filter, List.mem_map] at hp
  obtain ⟨⟨q, hq, rfl⟩, hne⟩ := hp
  refine ⟨fun hm => splitOn_mem _ _ q hq (trimChars_subset q _ hm), ?_, trimChars_idem q⟩
  intro h0
  rw [h0] at hne
  simp at hne

theorem scanKeys_inv :
    ∀ (pieces : List (List Char)) (d : Option Nat) (z : Option (List Char))
      (found : Option Nat × Option (List Char) × List (List Char)),
      PiecesOk pieces → (∀ m, d = some m → 1 ≤ m) →
      (∀ zz, z = some zz → Char.ofNat 59 ∉ zz) →
      scanKeys pieces d z = .ok found →
      (∀ m, found.1 = some m → 1 ≤ m) ∧
      (∀ zz, found.2.1 = some zz → Char.ofNat 59 ∉ zz) ∧
      PiecesOk found.2.2 ∧
      (∀ p r, found.2.2 = p :: r →
        startsWith "DR=".data p = false ∧ startsWith "TZ=".data p = false) := by
  intro pieces
  induction pieces with
  | nil =>
    intro d z found hok hd hz h
    have h0 : scanKeys [] d z = .ok (d, z, []) := rfl
    rw [h0] at h
    cases h
    exact ⟨hd, hz, hok, fun p r hpr => by simp at hpr⟩
  | cons p ps ih =>
    intro d z found hok hd hz h
    have hps : PiecesOk ps := fun q hq => hok q (List.mem_cons_of_mem _ hq)
    rw [scanKeys_cons] at h
    by_cases h1 : startsWith "DR=".data p = true
    · simp only [h1, if_true] at h
      cases d with
      | some m0 => simp at h
      | none =>
        simp only at h
        cases hv : parseInteger (p.drop 3) with
        | none => rw [hv] at h; simp at h
        | some v =>
          rw [hv] at h
          simp only at h
          by_cases hv0 : v ≤ 0
          · simp [hv0] at h
          · simp only [hv0, if_false] at h
            exact ih (some v.toNat) z found hps
              (fun m hm => by
                simp only [Option.some.injEq] at hm
                omega) hz h
    · simp only [h1, Bool.false_eq_true, if_false] at h
      by_cases h2 : startsWith "TZ=".data p = true
      · simp only [h2, if_true] at h
        cases z with
        | some z0 => simp at h
        | none =>
          simp only at h
          refine ih d _ found hps hd ?_ h
          intro zz hzz
          simp only [Option.some.injEq] at hzz
          rw [← hzz]
          split
          · simp
          · exact fun hm => (hok p (by simp)).1 (List.mem_of_mem_drop hm)
      · simp only [h2, Bool.false_eq_true, if_false] at h
        cases h
        refine ⟨hd, hz, hok, ?_⟩
        intro q r hqr
        simp only [List.cons.injEq] at hqr
        rw [← hqr.1]
        exact ⟨by simpa using h1, by simpa using h2⟩

theorem startsWith_append_space (q : List Char) :
    ∀ (key p : List Char), Char.ofNat 32 ∉ key → startsWith key p = false →
      startsWith key (p ++ Char.ofNat 32 :: q) = false := by
  intro key
  induction key with
  | nil => intro p _ h; simp [startsWith] at h
  | cons a as ih =>
    intro p hk h
    have ha : a ≠ Char.ofNat 32 := fun e => hk (by simp [e])
    have has : Char.ofNat 32 ∉ as := fun e => hk (List.mem_cons_of_mem _ e)
    cases p with
    | nil => simp [startsWith, ha]
    | cons b bs =>
      simp only [startsWith, Bool.and_eq_false_imp, beq_iff_eq] at h
      simp only [List.cons_append, startsWith, Bool.and_eq_false_imp, beq_iff_eq]
      intro hab
      exact ih bs has (h hab)

theorem startsWith_of_append (b : List Char) :
    ∀ (key a : List Char), key ≠ [] → startsWith key (a ++ b) = false →
      startsWith key a = false := by
  intro key
  induction key with
  | nil => intro a h0 _; exact absurd rfl h0
  | cons k ks ih =>
    intro a _ h
    cases a with
    | nil => rfl
    | cons x xs =>
      simp only [List.cons_append, startsWith, Bool.and_eq_false_imp, beq_iff_eq] at h
      simp only [startsWith, Bool.and_eq_false_imp, beq_iff_eq]
      intro hkx
      cases ks with
      | nil => simp [startsWith] at h; exact absurd hkx h
      | cons k2 ks2 => exact ih xs (by simp) (h hkx)

theorem joinWords_no_semicolon :
    ∀ rest : List (List Char), PiecesOk rest → Char.ofNat 59 ∉ joinWords rest := by
  intro rest
  induction rest with
  | nil => intro _; simp [joinWords]
  | cons p ps ih =>
    intro hok
    have hp := (hok p (by simp)).1
    cases ps with
    | nil => simpa [joinWords] using hp
    | cons q qs =>
      have hrec := ih (fun x hx => hok x (List.mem_cons_of_mem _ hx))
      intro hm
      simp only [joinWords, List.mem_append, List.mem_cons] at hm
      rcases hm with h | h | h
      · exact hp h
      · exact absurd h (by decide)
      · exact hrec h

theorem joinWords_plain (rest : List (List Char)) (hok : PiecesOk rest)
    (hhead : ∀ p r, rest = p :: r →
      startsWith "DR=".data p = false ∧ startsWith "TZ=".data p = false) :
    PlainText (trimChars (joinWords rest)) := by
  have hsemi : Char.ofNat 59 ∉ trimChars (joinWords rest) :=
    fun hm => joinWords_no_semicolon rest hok (trimChars_subset _ _ hm)
  cases rest with
  | nil => exact ⟨hsemi, rfl, rfl⟩
  | cons p r =>
    obtain ⟨h1, h2⟩ := hhead p r rfl
    obtain ⟨-, hne, htrim⟩ := hok p (by simp)
    have hshape : ∃ tail, joinWords (p :: r) = p ++ tail ∧
        (tail = [] ∨ ∃ q, tail = Char.ofNat 32 :: q) := by
      cases r with
      | nil => exact ⟨[], by simp [joinWords], Or.inl rfl⟩
      | cons q qs => exact ⟨_, rfl, Or.inr ⟨_, rfl⟩⟩
    obtain ⟨tail, hj, htail⟩ := hshape
    have hkey : startsWith "DR=".data (joinWords (p :: r)) = false ∧
        startsWith "TZ=".data (joinWords (p :: r)) = false := by
      rw [hj]
      rcases htail with h0 | ⟨q, hq⟩
      · rw [h0, List.append_nil]
        exact ⟨h1, h2⟩
      · rw [hq]
        exact ⟨startsWith_append_space q _ p (by decide) h1,
          startsWith_append_space q _ p (by decide) h2⟩
    have hdrop : (joinWords (p :: r)).dropWhile isSpace = joinWords (p :: r) := by
      rw [hj]
      cases p with
      | nil => exact absurd rfl hne
      | cons c cs =>
        have hc := trimChars_head (c :: cs) c cs htrim
        simp [hc]
    obtain ⟨u, hu⟩ := List.rdropWhile_prefix isSpace (joinWords (p :: r))
    have hte : trimChars (joinWords (p :: r)) = (joinWords (p :: r)).rdropWhile isSpace := by
      rw [trimChars_eq, hdrop]
    rw [hte]
    rw [hte] at hsemi
    refine ⟨hsemi, ?_, ?_⟩
    · apply startsWith_of_append u _ _ (by decide)
      rw [hu]
      exact hkey.1
    · apply startsWith_of_append u _ _ (by decide)
      rw [hu]
      exact hkey.2

theorem ParseString_ok_inv (env : Externals) (s : String) (c : CronRange)
    (h : ParseString env s = (some c, none)) :
    ∃ (m : Nat) (z : Option (List Char)) (rest : List (List Char)),
      scanKeys (textPieces s) none none = .ok (some m, z, rest) ∧
      New env ⟨joinWords rest⟩ ⟨z.getD []⟩ m = (some c, none) := by
  unfold ParseString at h
  cases hp : textPieces s with
  | nil => rw [hp] at h; simp at h
  | cons p ps =>
    rw [hp] at h
    simp only at h
    cases hscan : scanKeys (p :: ps) none none with
    | error e => rw [hscan] at h; simp at h
    | ok found =>
      rw [hscan] at h
      simp only at h
      obtain ⟨d, z, rest⟩ := found
      cases d with
      | none => simp [construct] at h
      | some minutes =>
        rw [construct_some] at h
        exact ⟨minutes, z, rest, rfl, liftError_ok _ _ h⟩

theorem roundtrip_of_internalNew (env : Externals) (cronText zoneName : String) (k : Nat)
    (cp : Parser) (c c0 : CronRange) (hk2 : k ≤ 153722867)
    (h0 : internalNew env cronText zoneName ((k : Int) * Minute) cp = (some c0, none))
    (e1 : c.cronExpression = c0.cronExpression) (e2 : c.timeZone = c0.timeZone)
    (e3 : c.location = c0.location) (e4 : c.expr = c0.expr) (e5 : c.duration = c0.duration)
    (hplain : PlainText c.cronExpression.data)
    (hzone : Char.ofNat 59 ∉ c.timeZone.data) :
    1 ≤ k ∧
    CronRange.String (some c) = ⟨canonicalChars k c.timeZone c.cronExpression⟩ ∧
    ∃ c1 : CronRange, ParseString env (CronRange.String (some c)) = (some c1, none) ∧
      c1.cronExpression = c.cronExpression ∧ c1.timeZone = c.timeZone ∧
      c1.location = c.location ∧ c1.expr = c.expr ∧ c1.duration = c.duration ∧
      CronRange.String (some c1) = CronRange.String (some c) := by
  have hM : Minute ≠ 0 := by decide
  obtain ⟨hd, hdur, ⟨e, he⟩, ⟨l, hl⟩, ht1, ht2, hnl⟩ :=
    constructed_zone_not_local _ _ _ _ _ _ h0
  have hkpos : 0 < k := by
    by_contra hn
    have : k = 0 := by omega
    subst this
    simp at hd
  have hmin : (c.duration / Minute).toNat = k := by
    rw [e5, hdur, Int.mul_ediv_cancel _ hM, Int.toNat_ofNat]
  have hstr : CronRange.String (some c) = ⟨canonicalChars k c.timeZone c.cronExpression⟩ := by
    rw [String_complete c e l (by rw [e5, hdur]; exact hd) (by rw [e4]; exact he)
      (by rw [e3]; exact hl), hmin]
  have hparse := ParseString_canonical env k hkpos c.timeZone.data c.cronExpression.data
    (by rw [e2]; exact ht2) (by rw [e1]; exact ht1) hzone hplain (by rw [e2]; exact hnl)
  have hnew : New env c.cronExpression c.timeZone k = (some { c0 with version := 0 }, none) := by
    unfold New
    rw [minutes_no_wrap k hk2, e1, e2]
    exact internalNew_again _ _ _ _ _ _ h0
  refine ⟨hkpos, hstr, { c0 with version := 0 }, ?_, e1.symm, e2.symm, e3.symm, e4.symm,
    e5.symm, ?_⟩
  · rw [hstr, hparse]
    show liftError (New env c.cronExpression c.timeZone k) = _
    rw [hnew]
    rfl
  · have hmin0 : (c0.duration / Minute).toNat = k := by rw [← e5]; exact hmin
    rw [hstr, String_complete { c0 with version := 0 } e l (by rw [hdur]; exact hd) he hl]
    show (⟨canonicalChars (c0.duration / Minute).toNat c0.timeZone c0.cronExpression⟩ : String)
      = _
    rw [hmin0, e1, e2]

/-- C15, refuted as stated: `ParseString` accepts `DR=307445735; * * * * *`, the count of
minutes wraps in `New` to a duration of 26.290448384 s, and `String` of the result is
`DR=0; * * * * *`, which is not in the canonical form (its `DR` is not positive) and which
`ParseString` itself rejects. -/
theorem ParseString_accepts_wrapping_minutes :
    ∃ c : CronRange,
      ParseString sampleExternals "DR=307445735; * * * * *" = (some c, none) ∧
      c.duration = 26290448384 ∧
      CronRange.String (some c) = "DR=0; * * * * *" ∧
      ParseString sampleExternals "DR=0; * * * * *"
        = (none, some ParseError.invalidDuration) :=
  ⟨_, rfl, rfl, rfl, rfl⟩

/-- C15, amended.  Round trip: for a CronRange `c` built by `Create` from a duration of `k`
whole minutes, or by `New` from `k` minutes, with `k` minutes within a `time.Duration`,
whose cron text holds no semicolon and begins with neither key and whose zone name holds no
semicolon, `String(c)` is the canonical text with `k ≥ 1` minutes and
`ParseString(String(c))` succeeds with the same cron text, zone name, location, schedule
and duration, and formats to the same text.  Accepted texts: when `ParseString` accepts
`s`, the key scan of `s` has read a `DR` value `m ≥ 1`; when `m` is at most 153722867, the
result has a duration of `m` minutes, the trimmed cron text and the trimmed zone name
(empty for `local`) that the scan has read, `String` of it is `DR=<m>; <cron>` or
`DR=<m>; TZ=<zone>; <cron>`, and `ParseString` accepts that text again with the same
result. -/
theorem parse_format_roundtrip (env : Externals) :
    (∀ (cronText zoneName : String) (k : Nat) (cp : Parser) (c : CronRange),
      (k : Int) * Minute < 9223372036854775808 →
      (Create env cronText zoneName ((k : Int) * Minute) cp = (some c, none) ∨
        New env cronText zoneName k = (some c, none)) →
      PlainText c.cronExpression.data → Char.ofNat 59 ∉ c.timeZone.data →
      1 ≤ k ∧
      CronRange.String (some c) = ⟨canonicalChars k c.timeZone c.cronExpression⟩ ∧
      ∃ c1 : CronRange, ParseString env (CronRange.String (some c)) = (some c1, none) ∧
        c1.cronExpression = c.cronExpression ∧ c1.timeZone = c.timeZone ∧
        c1.location = c.location ∧ c1.expr = c.expr ∧ c1.duration = c.duration ∧
        CronRange.String (some c1) = CronRange.String (some c)) ∧
    (∀ (s : String) (c2 : CronRange), ParseString env s = (some c2, none) →
      ∃ (m : Nat) (z : Option (List Char)) (rest : List (List Char)),
        scanKeys (textPieces s) none none = .ok (some m, z, rest) ∧ 1 ≤ m ∧
        (m ≤ 153722867 →
          c2.duration = (m : Int) * Minute ∧
          c2.cronExpression = TrimSpace ⟨joinWords rest⟩ ∧
          c2.timeZone = (if ToLower (TrimSpace ⟨z.getD []⟩) = "local" then ""
            else TrimSpace ⟨z.getD []⟩) ∧
          (c2.timeZone = "" →
            (CronRange.String (some c2)).data
              = "DR=".data ++ decimal m ++ "; ".data ++ c2.cronExpression.data) ∧
          (c2.timeZone ≠ "" →
            (CronRange.String (some c2)).data
              = "DR=".data ++ decimal m ++ "; TZ=".data ++ c2.timeZone.data ++ "; ".data
                  ++ c2.cronExpression.data) ∧
          ∃ c3 : CronRange,
            ParseString env (CronRange.String (some c2)) = (some c3, none) ∧
            c3.cronExpression = c2.cronExpression ∧ c3.timeZone = c2.timeZone ∧
            c3.location = c2.location ∧ c3.expr = c2.expr ∧ c3.duration = c2.duration ∧
            CronRange.String (some c3) = CronRange.String (some c2))) := by
  constructor
  · intro cronText zoneName k cp c hk hc hplain hzone
    have hk2 : k ≤ 153722867 := by
      unfold Minute Second at hk
      omega
    rcases hc with h | h
    · obtain ⟨c0, h0, rfl⟩ := Create_ok_inv _ _ _ _ _ _ h
      exact roundtrip_of_internalNew env cronText zoneName k cp _ c0 hk2 h0 rfl rfl rfl rfl
        rfl hplain hzone
    · unfold New at h
      rw [minutes_no_wrap k hk2] at h
      exact roundtrip_of_internalNew env cronText zoneName k cronParser c c hk2 h rfl rfl rfl
        rfl rfl hplain hzone
  · intro s c2 hs
    obtain ⟨m, z, rest, hscan, hnew⟩ := ParseString_ok_inv env s c2 hs
    obtain ⟨hm1, hz1, hrest, hhead⟩ := scanKeys_inv (textPieces s) none none _
      (textPieces_ok s) (fun m hm => by simp at hm) (fun zz hzz => by simp at hzz) hscan
    have hm : 1 ≤ m := hm1 m rfl
    refine ⟨m, z, rest, hscan, hm, ?_⟩
    intro hle
    have hnew2 := hnew
    unfold New at hnew2
    rw [minutes_no_wrap m hle] at hnew2
    obtain ⟨hd, expression, loc, -, hc2, -⟩ := internalNew_ok_inv _ _ _ _ _ _ hnew2
    have hce : c2.cronExpression = TrimSpace ⟨joinWords rest⟩ := by rw [hc2]
    have htz : c2.timeZone = (if ToLower (TrimSpace ⟨z.getD []⟩) = "local" then ""
        else TrimSpace ⟨z.getD []⟩) := by rw [hc2]
    have hdur : c2.duration = (m : Int) * Minute := by rw [hc2]
    have hplain : PlainText c2.cronExpression.data := by
      rw [hce, TrimSpace_data]
      exact joinWords_plain rest hrest hhead
    have hzone : Char.ofNat 59 ∉ c2.timeZone.data := by
      rw [htz]
      split
      · simp
      · rw [TrimSpace_data]
        intro hmem
        have hin := trimChars_subset _ _ hmem
        cases z with
        | none => simp at hin
        | some zz => exact hz1 zz rfl hin
    obtain ⟨-, hstr, hround⟩ := roundtrip_of_internalNew env _ _ m cronParser c2 c2 hle hnew2
      rfl rfl rfl rfl rfl hplain hzone
    refine ⟨hdur, hce, htz, ?_, ?_, hround⟩
    · intro h
      rw [hstr]
      simp [canonicalChars, h]
    · intro h
      rw [hstr]
      simp [canonicalChars, h]

/-- C15 amended, at `New("* * * * *", "Pacific/Honolulu", 10)` and at the text
`TZ=Pacific/Honolulu; DR=10; * * * * *`, which formats as
`DR=10; TZ=Pacific/Honolulu; * * * * *`. -/
theorem parse_format_roundtrip_witness :
    (1 ≤ 10 ∧
      CronRange.String (some everyMinuteHonolulu)
        = ⟨canonicalChars 10 everyMinuteHonolulu.timeZone everyMinuteHonolulu.cronExpression⟩ ∧
      ∃ c1 : CronRange,
        ParseString sampleExternals (CronRange.String (some everyMinuteHonolulu))
          = (some c1, none) ∧
        c1.cronExpression = everyMinuteHonolulu.cronExpression ∧
        c1.timeZone = everyMinuteHonolulu.timeZone ∧
        c1.location = everyMinuteHonolulu.location ∧ c1.expr = everyMinuteHonolulu.expr ∧
        c1.duration = everyMinuteHonolulu.duration ∧
        CronRange.String (some c1) = CronRange.String (some everyMinuteHonolulu)) ∧
    (∃ (m : Nat) (z : Option (List Char)) (rest : List (List Char)),
      scanKeys (textPieces "TZ=Pacific/Honolulu; DR=10; * * * * *") none none
        = .ok (some m, z, rest) ∧ 1 ≤ m ∧
      (m ≤ 153722867 →
        everyMinuteHonolulu.duration = (m : Int) * Minute ∧
        everyMinuteHonolulu.cronExpression = TrimSpace ⟨joinWords rest⟩ ∧
        everyMinuteHonolulu.timeZone = (if ToLower (TrimSpace ⟨z.getD []⟩) = "local" then ""
          else TrimSpace ⟨z.getD []⟩) ∧
        (everyMinuteHonolulu.timeZone = "" →
          (CronRange.String (some everyMinuteHonolulu)).data
            = "DR=".data ++ decimal m ++ "; ".data
                ++ everyMinuteHonolulu.cronExpression.data) ∧
        (everyMinuteHonolulu.timeZone ≠ "" →
          (CronRange.String (some everyMinuteHonolulu)).data
            = "DR=".data ++ decimal m ++ "; TZ=".data ++ everyMinuteHonolulu.timeZone.data
                ++ "; ".data ++ everyMinuteHonolulu.cronExpression.data) ∧
        ∃ c3 : CronRange,
          ParseString sampleExternals (CronRange.String (some everyMinuteHonolulu))
            = (some c3, none) ∧
          c3.cronExpression = everyMinuteHonolulu.cronExpression ∧
          c3.timeZone = everyMinuteHonolulu.timeZone ∧
          c3.location = everyMinuteHonolulu.location ∧
          c3.expr = everyMinuteHonolulu.expr ∧
          c3.duration = everyMinuteHonolulu.duration ∧
          CronRange.String (some c3) = CronRange.String (some everyMinuteHonolulu))) ∧
    ParseString sampleExternals "TZ=Pacific/Honolulu; DR=10; * * * * *"
      = (some everyMinuteHonolulu, none) ∧
    CronRange.String (some everyMinuteHonolulu) = "DR=10; TZ=Pacific/Honolulu; * * * * *" :=
  ⟨(parse_format_roundtrip sampleExternals).1 "* * * * *" "Pacific/Honolulu" 10 cronParser
      everyMinuteHonolulu (by decide) (Or.inr rfl) ⟨by decide, rfl, rfl⟩ (by decide),
    (parse_format_roundtrip sampleExternals).2 "TZ=Pacific/Honolulu; DR=10; * * * * *"
      everyMinuteHonolulu rfl,
    rfl, rfl⟩

end Cronrange
